import Mathlib

/-!
# A verification of the `limit_orderbook` matching engine

This file gives a shallow embedding of the C++ central limit order book
(`src/orderbook.h`, `src/orderbook.cpp`, `src/types.h`) and proves the
specification claims about it.

Representation choices:
* `Price` and `Quantity` are represented as `Nat`.  The C++ `Price` is a
  positive `int32_t` used only in comparisons, and `Quantity` is a
  `uint32_t` that is only ever decreased by guarded subtraction, so
  unbounded naturals with explicit `% 2 ^ 32` at the one place the
  machine arithmetic can wrap (the snapshot accumulation) are exact.
* The two `std::map`s of price levels become price-sorted association
  lists (`bids` descending, `asks` ascending); `begin()` is the head.
* Each `std::list` FIFO queue at a price level becomes a `List Order`
  whose head is the front of the queue.
* The `std::unordered_map<OrderId, OrderEntry>` order index becomes a
  list of `IndexEntry`.  The C++ entry holds a shared pointer to the
  order and an iterator into its level; all the fields the code ever
  reads through it in `cancelOrder` / `matchOrder` (id, side, type,
  price) are immutable after creation, so the entry stores those fields
  directly.
-/

inductive OrderSide where
  | BUY
  | SELL
deriving DecidableEq, Repr

inductive OrderType where
  | GTC
  | FOK
deriving DecidableEq, Repr

/-- The C++ `Order` (orderbook.h).  Only `remainingQuantity` ever mutates. -/
structure Order where
  id : Nat
  side : OrderSide
  type : OrderType
  price : Nat
  initialQuantity : Nat
  remainingQuantity : Nat
deriving DecidableEq, Repr

/-- `Order::isFilled`: `remainingQuantity_.get() == 0`. -/
def Order.isFilled (o : Order) : Bool :=
  o.remainingQuantity == 0

/-- `Order::fill` (orderbook.cpp, lines 9-16): throws `std::invalid_argument`
when the quantity exceeds the remaining quantity (modelled as `none`),
otherwise subtracts. -/
def Order.fill (o : Order) (quantity : Nat) : Option Order :=
  if o.remainingQuantity < quantity then none
  else some { o with remainingQuantity := o.remainingQuantity - quantity }

/-- One leg of a `Trade` (orderbook.h `TradeInfo`). -/
structure TradeInfo where
  orderId : Nat
  price : Nat
  quantity : Nat
deriving DecidableEq, Repr

/-- A completed trade between two orders (orderbook.h `Trade`). -/
structure Trade where
  bid : TradeInfo
  ask : TradeInfo
deriving DecidableEq, Repr

/-- The data `cancelOrder` and `matchOrder` read through an
`OrderBook::OrderEntry`; all of it is immutable after order creation. -/
structure IndexEntry where
  id : Nat
  side : OrderSide
  type : OrderType
  price : Nat
deriving DecidableEq, Repr

/-- `OrderModifier` (orderbook.h). -/
structure OrderModifier where
  id : Nat
  side : OrderSide
  type : OrderType
  price : Nat
  quantity : Nat
deriving DecidableEq, Repr

/-- `OrderModifier::toOrderPointer` (orderbook.cpp, lines 19-22): builds a
fresh order with the preserved type; the `Order` constructor sets both the
initial and the remaining quantity to the given quantity. -/
def OrderModifier.toOrderPointer (m : OrderModifier) (type : OrderType) : Order :=
  ⟨m.id, m.side, type, m.price, m.quantity, m.quantity⟩

/-- The `OrderBook` state: `bids_` (descending prices), `asks_` (ascending
prices) and the order index `orders_`. -/
structure BookState where
  bids : List (Nat × List Order)
  asks : List (Nat × List Order)
  orders : List IndexEntry
deriving DecidableEq, Repr

def emptyBook : BookState := ⟨[], [], []⟩

/-- The orders resting on one book side, best level first, FIFO within a
level. -/
def sideOrders : List (Nat × List Order) → List Order
  | [] => []
  | (_, q) :: rest => q ++ sideOrders rest

/-- All resting orders: the contents of every level on both sides. -/
def allOrders (s : BookState) : List Order :=
  sideOrders s.bids ++ sideOrders s.asks

/-- `OrderBook::getSize`: `orders_.size()`. -/
def getSize (s : BookState) : Nat :=
  s.orders.length

def entryOf (o : Order) : IndexEntry :=
  ⟨o.id, o.side, o.type, o.price⟩

/-- `OrderBook::canMatch` (orderbook.cpp, lines 25-49): a BUY can match when
the ask side is non-empty and the price is `>=` the best ask; a SELL when
the bid side is non-empty and the price is `<=` the best bid. -/
def canMatch (s : BookState) (side : OrderSide) (price : Nat) : Bool :=
  match side with
  | OrderSide.BUY =>
    match s.asks with
    | [] => false
    | (bestAsk, _) :: _ => decide (bestAsk ≤ price)
  | OrderSide.SELL =>
    match s.bids with
    | [] => false
    | (bestBid, _) :: _ => decide (price ≤ bestBid)

/-- `unordered_map::erase(key)`: remove the (unique) entry with this id. -/
def eraseById (i : Nat) : List IndexEntry → List IndexEntry
  | [] => []
  | e :: rest => if e.id = i then rest else e :: eraseById i rest

/-- `std::list::erase(iterator)` under invariant 1: the iterator stored for
an id names the unique element of the queue carrying that id. -/
def eraseOrder (i : Nat) : List Order → List Order
  | [] => []
  | o :: rest => if o.id = i then rest else o :: eraseOrder i rest

/-- The level-removal part of `OrderBook::cancelOrder` (orderbook.cpp,
lines 206-215): erase the order from the queue at its price and drop the
level if it becomes empty.  (`sideMap.at(price)` presupposes the level is
present; on a book satisfying invariant 1 it always is.) -/
def removeFromSide (price i : Nat) : List (Nat × List Order) → List (Nat × List Order)
  | [] => []
  | (p, q) :: rest =>
    if p = price then
      let q2 := eraseOrder i q
      if q2.isEmpty then rest else (p, q2) :: rest
    else (p, q) :: removeFromSide price i rest

/-- `OrderBook::cancelOrder` (orderbook.cpp, lines 194-216). -/
def cancelOrder (s : BookState) (orderId : Nat) : BookState :=
  match s.orders.find? (fun e => decide (e.id = orderId)) with
  | none => s
  | some e =>
    match e.side with
    | OrderSide.SELL => ⟨s.bids, removeFromSide e.price orderId s.asks, eraseById orderId s.orders⟩
    | OrderSide.BUY => ⟨removeFromSide e.price orderId s.bids, s.asks, eraseById orderId s.orders⟩

/-- One iteration of the matching loop of `OrderBook::matchOrders`
(orderbook.cpp, lines 57-127): with both sides non-empty and the best bid
not below the best ask, trade the two head orders, remove any filled head
(also erasing it from the index) and drop any level that became empty.
`Order::fill` is called here with `min` of the remaining quantities, which
never exceeds either remaining quantity, so the in-place subtraction is
exact (a theorem below shows the guard condition always holds).  The source re-reads the best
level from the map after a level is erased, so folding the inner and outer
loops into one step function preserves the trade sequence.  A crossing
best level with an empty queue would make the C++ loop spin; no such level
exists on any reachable book (invariant 2), and the step returns `none`
there. -/
def matchStep (s : BookState) : Option (Trade × BookState) :=
  match s.bids, s.asks with
  | (bidPrice, bid :: bidQueue) :: restBids, (askPrice, ask :: askQueue) :: restAsks =>
    if bidPrice < askPrice then none
    else
      let tradeQuantity := min bid.remainingQuantity ask.remainingQuantity
      let bid2 : Order := { bid with remainingQuantity := bid.remainingQuantity - tradeQuantity }
      let ask2 : Order := { ask with remainingQuantity := ask.remainingQuantity - tradeQuantity }
      let newBidQueue := if bid2.isFilled then bidQueue else bid2 :: bidQueue
      let newAskQueue := if ask2.isFilled then askQueue else ask2 :: askQueue
      let orders1 := if bid2.isFilled then eraseById bid.id s.orders else s.orders
      let orders2 := if ask2.isFilled then eraseById ask.id orders1 else orders1
      let newBids := if newBidQueue.isEmpty then restBids else (bidPrice, newBidQueue) :: restBids
      let newAsks := if newAskQueue.isEmpty then restAsks else (askPrice, newAskQueue) :: restAsks
      some (⟨⟨bid.id, bid.price, tradeQuantity⟩, ⟨ask.id, ask.price, tradeQuantity⟩⟩,
            ⟨newBids, newAsks, orders2⟩)
  | _, _ => none

/-- The number of resting orders; every firing of `matchStep` removes at
least one head order, so this bounds the iteration count of the loop. -/
def numOrders (s : BookState) : Nat :=
  (allOrders s).length

/-- The `while(true)` matching loop, run with an explicit iteration budget. -/
def matchLoopFuel : Nat → BookState → List Trade × BookState
  | 0, s => ([], s)
  | fuel + 1, s =>
    match matchStep s with
    | none => ([], s)
    | some (t, s2) =>
      let r := matchLoopFuel fuel s2
      (t :: r.1, r.2)

/-- The matching loop with a budget that provably suffices (the
termination theorem below shows fuel beyond `numOrders` is irrelevant). -/
def matchLoop (s : BookState) : List Trade × BookState :=
  matchLoopFuel (numOrders s + 1) s

/-- The FOK collection pass of `OrderBook::matchOrders` (orderbook.cpp,
lines 131-147): the ids of every unfilled FOK order, level by level. -/
def collectFokSide : List (Nat × List Order) → List Nat
  | [] => []
  | (_, q) :: rest =>
    (q.filter (fun o => decide (o.type = OrderType.FOK) && ! o.isFilled)).map Order.id
      ++ collectFokSide rest

/-- The FOK cancellation pass (orderbook.cpp, lines 150-153). -/
def cancelAll (ids : List Nat) (s : BookState) : BookState :=
  ids.foldl cancelOrder s

/-- `OrderBook::matchOrders` (orderbook.cpp, lines 51-156): the matching
loop followed by cancellation of every unfilled FOK order. -/
def matchOrders (s : BookState) : List Trade × BookState :=
  let r := matchLoop s
  let fokIds := collectFokSide r.2.bids ++ collectFokSide r.2.asks
  (r.1, cancelAll fokIds r.2)

/-- `std::map` subscript plus `push_back` (orderbook.cpp, lines 176-183),
for the bid map (`std::greater` comparator, descending keys): append to the
queue at this price, creating the level at its sorted position if absent. -/
def insertBidLevel (price : Nat) (o : Order) : List (Nat × List Order) → List (Nat × List Order)
  | [] => [(price, [o])]
  | (p, q) :: rest =>
    if price = p then (p, q ++ [o]) :: rest
    else if p < price then (price, [o]) :: (p, q) :: rest
    else (p, q) :: insertBidLevel price o rest

/-- Same for the ask map (`std::less` comparator, ascending keys). -/
def insertAskLevel (price : Nat) (o : Order) : List (Nat × List Order) → List (Nat × List Order)
  | [] => [(price, [o])]
  | (p, q) :: rest =>
    if price = p then (p, q ++ [o]) :: rest
    else if price < p then (price, [o]) :: (p, q) :: rest
    else (p, q) :: insertAskLevel price o rest

/-- The insertion part of `OrderBook::addOrder` (orderbook.cpp,
lines 176-188): append the order to its side and register it in the index. -/
def insertOrder (s : BookState) (o : Order) : BookState :=
  match o.side with
  | OrderSide.BUY => ⟨insertBidLevel o.price o s.bids, s.asks, s.orders ++ [entryOf o]⟩
  | OrderSide.SELL => ⟨s.bids, insertAskLevel o.price o s.asks, s.orders ++ [entryOf o]⟩

/-- `OrderBook::addOrder` (orderbook.cpp, lines 158-192). -/
def addOrder (s : BookState) (o : Order) : List Trade × BookState :=
  if (s.orders.find? (fun e => decide (e.id = o.id))).isSome then ([], s)
  else if decide (o.type = OrderType.FOK) && ! canMatch s o.side o.price then ([], s)
  else matchOrders (insertOrder s o)

/-- `OrderBook::matchOrder` (orderbook.cpp, lines 218-229): the amend
operation — look the id up, capture the type of the existing order, cancel,
re-add. -/
def matchOrder (s : BookState) (m : OrderModifier) : List Trade × BookState :=
  match s.orders.find? (fun e => decide (e.id = m.id)) with
  | none => ([], s)
  | some e => addOrder (cancelOrder s m.id) (m.toOrderPointer e.type)

/-- The `uint32_t` accumulation in `getOrderBookLevelInfos` (orderbook.cpp,
lines 238-240): machine addition wraps modulo `2 ^ 32`. -/
def levelQty32 (q : List Order) : Nat :=
  q.foldl (fun runningSum o => (runningSum + o.remainingQuantity) % 4294967296) 0

/-- The `createLevelInfos` lambda (orderbook.cpp, lines 237-246), including
the synthetic `Quantity(1)` branch for a zero aggregate. -/
def createLevelInfos (price : Nat) (q : List Order) : Nat × Nat :=
  let totalQty := levelQty32 q
  if totalQty = 0 then (price, 1) else (price, totalQty)

/-- `OrderBook::getOrderBookLevelInfos` (orderbook.cpp, lines 231-258). -/
def getOrderBookLevelInfos (s : BookState) : List (Nat × Nat) × List (Nat × Nat) :=
  (s.bids.map (fun pq => createLevelInfos pq.1 pq.2),
   s.asks.map (fun pq => createLevelInfos pq.1 pq.2))

/-- The guarantees the `Price` and `Quantity` constructors (types.h) give
for a freshly created order: positive price, positive quantity below
`2 ^ 32`, and remaining = initial. -/
def ValidOrder (o : Order) : Prop :=
  0 < o.price ∧ 0 < o.initialQuantity ∧ o.initialQuantity < 4294967296 ∧
    o.remainingQuantity = o.initialQuantity

/-- The same constructor guarantees for an `OrderModifier`. -/
def ValidModifier (m : OrderModifier) : Prop :=
  0 < m.price ∧ 0 < m.quantity ∧ m.quantity < 4294967296

instance (o : Order) : Decidable (ValidOrder o) := by
  unfold ValidOrder
  infer_instance

instance (m : OrderModifier) : Decidable (ValidModifier m) := by
  unfold ValidModifier
  infer_instance

/-- Book states reachable from the empty book through the public API with
constructor-validated inputs. -/
inductive Reachable : BookState → Prop where
  | empty : Reachable emptyBook
  | submit {s : BookState} {o : Order} :
      Reachable s → ValidOrder o → Reachable (addOrder s o).2
  | cancel {s : BookState} (orderId : Nat) :
      Reachable s → Reachable (cancelOrder s orderId)
  | amend {s : BookState} {m : OrderModifier} :
      Reachable s → ValidModifier m → Reachable (matchOrder s m).2

/-! ## Invariants -/

/-- Invariant 4 of the spec, strengthened through sortedness to all pairs of
levels: every bid level prices strictly below every ask level. -/
def NoCross (s : BookState) : Prop :=
  ∀ pb ∈ s.bids, ∀ pa ∈ s.asks, pb.1 < pa.1

/-- Invariant 6 of the spec: no FOK order rests in any level. -/
def NoFok (s : BookState) : Prop :=
  ∀ o ∈ allOrders s, o.type ≠ OrderType.FOK

/-- The structural well-formedness of a book: sorted level maps, no empty
level, side/price coherence, positive bounded remaining quantities, and the
order index in bijection with the resting orders. -/
structure BookWF (s : BookState) : Prop where
  bidsSorted : List.Pairwise (fun a b : Nat × List Order => b.1 < a.1) s.bids
  asksSorted : List.Pairwise (fun a b : Nat × List Order => a.1 < b.1) s.asks
  bidsNE : ∀ pq ∈ s.bids, pq.2 ≠ []
  asksNE : ∀ pq ∈ s.asks, pq.2 ≠ []
  bidsSide : ∀ pq ∈ s.bids, ∀ o ∈ pq.2, o.side = OrderSide.BUY ∧ o.price = pq.1
  asksSide : ∀ pq ∈ s.asks, ∀ o ∈ pq.2, o.side = OrderSide.SELL ∧ o.price = pq.1
  posRem : ∀ o ∈ allOrders s, 0 < o.remainingQuantity ∧ o.remainingQuantity < 4294967296
  idsNodup : ((allOrders s).map Order.id).Nodup
  idxComplete : ∀ o ∈ allOrders s, entryOf o ∈ s.orders
  idxSound : ∀ e ∈ s.orders, ∃ o ∈ allOrders s, entryOf o = e
  idxNodup : (s.orders.map IndexEntry.id).Nodup

/-! ## Basic list lemmas -/

theorem sideOrders_nil : sideOrders [] = [] := rfl

theorem sideOrders_cons (p : Nat) (q : List Order) (rest : List (Nat × List Order)) :
    sideOrders ((p, q) :: rest) = q ++ sideOrders rest := rfl

theorem mem_sideOrders {o : Order} {L : List (Nat × List Order)} :
    o ∈ sideOrders L ↔ ∃ pq ∈ L, o ∈ pq.2 := by
  induction L with
  | nil => simp [sideOrders]
  | cons pq rest ih =>
    obtain ⟨p, q⟩ := pq
    simp [sideOrders_cons, ih]

theorem sideOrders_ite (p : Nat) (l : List Order) (rest : List (Nat × List Order)) :
    sideOrders (if l.isEmpty then rest else (p, l) :: rest) = l ++ sideOrders rest := by
  cases l <;> simp [sideOrders_cons]

theorem eraseOrder_sublist (i : Nat) (l : List Order) : List.Sublist (eraseOrder i l) l := by
  induction l with
  | nil => simp [eraseOrder]
  | cons o rest ih =>
    by_cases h : o.id = i
    · simp only [eraseOrder, if_pos h]
      exact List.Sublist.cons o (List.Sublist.refl rest)
    · simp only [eraseOrder, if_neg h]
      exact List.Sublist.cons₂ o ih

theorem mem_eraseOrder_of_ne {o : Order} {i : Nat} {l : List Order}
    (h : o ∈ l) (hne : o.id ≠ i) : o ∈ eraseOrder i l := by
  induction l with
  | nil => simp at h
  | cons x rest ih =>
    by_cases hx : x.id = i
    · simp only [eraseOrder, if_pos hx]
      rcases List.mem_cons.1 h with rfl | h2
      · exact absurd hx hne
      · exact h2
    · simp only [eraseOrder, if_neg hx]
      rcases List.mem_cons.1 h with rfl | h2
      · exact List.mem_cons_self _ _
      · exact List.mem_cons_of_mem _ (ih h2)

theorem mem_eraseOrder_nodup {o : Order} {i : Nat} {l : List Order}
    (hnd : (l.map Order.id).Nodup) (h : o ∈ eraseOrder i l) : o ∈ l ∧ o.id ≠ i := by
  induction l with
  | nil => simp [eraseOrder] at h
  | cons x rest ih =>
    simp only [List.map_cons, List.nodup_cons] at hnd
    by_cases hx : x.id = i
    · simp only [eraseOrder, if_pos hx] at h
      refine ⟨List.mem_cons_of_mem _ h, ?_⟩
      intro hoi
      apply hnd.1
      rw [hx, ← hoi]
      exact List.mem_map_of_mem Order.id h
    · simp only [eraseOrder, if_neg hx] at h
      rcases List.mem_cons.1 h with rfl | h2
      · exact ⟨List.mem_cons_self _ _, hx⟩
      · obtain ⟨h3, h4⟩ := ih hnd.2 h2
        exact ⟨List.mem_cons_of_mem _ h3, h4⟩

theorem eraseById_sublist (i : Nat) (l : List IndexEntry) : List.Sublist (eraseById i l) l := by
  induction l with
  | nil => simp [eraseById]
  | cons e rest ih =>
    by_cases h : e.id = i
    · simp only [eraseById, if_pos h]
      exact List.Sublist.cons e (List.Sublist.refl rest)
    · simp only [eraseById, if_neg h]
      exact List.Sublist.cons₂ e ih

theorem mem_eraseById_of_ne {e : IndexEntry} {i : Nat} {l : List IndexEntry}
    (h : e ∈ l) (hne : e.id ≠ i) : e ∈ eraseById i l := by
  induction l with
  | nil => simp at h
  | cons x rest ih =>
    by_cases hx : x.id = i
    · simp only [eraseById, if_pos hx]
      rcases List.mem_cons.1 h with rfl | h2
      · exact absurd hx hne
      · exact h2
    · simp only [eraseById, if_neg hx]
      rcases List.mem_cons.1 h with rfl | h2
      · exact List.mem_cons_self _ _
      · exact List.mem_cons_of_mem _ (ih h2)

theorem mem_eraseById_nodup {e : IndexEntry} {i : Nat} {l : List IndexEntry}
    (hnd : (l.map IndexEntry.id).Nodup) (h : e ∈ eraseById i l) : e ∈ l ∧ e.id ≠ i := by
  induction l with
  | nil => simp [eraseById] at h
  | cons x rest ih =>
    simp only [List.map_cons, List.nodup_cons] at hnd
    by_cases hx : x.id = i
    · simp only [eraseById, if_pos hx] at h
      refine ⟨List.mem_cons_of_mem _ h, ?_⟩
      intro hoi
      apply hnd.1
      rw [hx, ← hoi]
      exact List.mem_map_of_mem IndexEntry.id h
    · simp only [eraseById, if_neg hx] at h
      rcases List.mem_cons.1 h with rfl | h2
      · exact ⟨List.mem_cons_self _ _, hx⟩
      · obtain ⟨h3, h4⟩ := ih hnd.2 h2
        exact ⟨List.mem_cons_of_mem _ h3, h4⟩

/-! ## The matching step: explicit description -/

theorem matchStep_run {s : BookState} {bp ap : Nat} {bid ask : Order}
    {bq aq : List Order} {rb ra : List (Nat × List Order)}
    (hb : s.bids = (bp, bid :: bq) :: rb) (ha : s.asks = (ap, ask :: aq) :: ra)
    (hle : ap ≤ bp) :
    matchStep s =
      some (⟨⟨bid.id, bid.price, min bid.remainingQuantity ask.remainingQuantity⟩,
             ⟨ask.id, ask.price, min bid.remainingQuantity ask.remainingQuantity⟩⟩,
            ⟨(if bid.remainingQuantity - min bid.remainingQuantity ask.remainingQuantity = 0 then
                if bq = [] then rb else (bp, bq) :: rb
              else
                (bp, { bid with remainingQuantity :=
                        bid.remainingQuantity - min bid.remainingQuantity ask.remainingQuantity } :: bq) :: rb),
             (if ask.remainingQuantity - min bid.remainingQuantity ask.remainingQuantity = 0 then
                if aq = [] then ra else (ap, aq) :: ra
              else
                (ap, { ask with remainingQuantity :=
                        ask.remainingQuantity - min bid.remainingQuantity ask.remainingQuantity } :: aq) :: ra),
             (if ask.remainingQuantity - min bid.remainingQuantity ask.remainingQuantity = 0 then
                eraseById ask.id
                  (if bid.remainingQuantity - min bid.remainingQuantity ask.remainingQuantity = 0 then
                     eraseById bid.id s.orders
                   else s.orders)
              else
                (if bid.remainingQuantity - min bid.remainingQuantity ask.remainingQuantity = 0 then
                   eraseById bid.id s.orders
                 else s.orders))⟩) := by
  obtain ⟨B, A, O⟩ := s
  simp only at hb ha
  subst hb
  subst ha
  simp only [matchStep]
  rw [if_neg (Nat.not_lt.2 hle)]
  by_cases hbf : bid.remainingQuantity - min bid.remainingQuantity ask.remainingQuantity = 0 <;>
    by_cases haf : ask.remainingQuantity - min bid.remainingQuantity ask.remainingQuantity = 0 <;>
      cases bq <;> cases aq <;>
        simp [Order.isFilled, hbf, haf]

theorem matchStep_shapes {s : BookState} {t : Trade} {s2 : BookState}
    (h : matchStep s = some (t, s2)) :
    ∃ bp bid bq rb ap ask aq ra,
      s.bids = (bp, bid :: bq) :: rb ∧ s.asks = (ap, ask :: aq) :: ra ∧ ap ≤ bp := by
  obtain ⟨B, A, O⟩ := s
  rcases B with _ | ⟨⟨bp, _ | ⟨bid, bq⟩⟩, rb⟩ <;>
    rcases A with _ | ⟨⟨ap, _ | ⟨ask, aq⟩⟩, ra⟩ <;>
      simp only [matchStep] at h <;>
      try (exact Option.noConfusion h)
  by_cases hlt : bp < ap
  · rw [if_pos hlt] at h
    exact Option.noConfusion h
  · exact ⟨bp, bid, bq, rb, ap, ask, aq, ra, rfl, rfl, Nat.not_lt.1 hlt⟩

theorem sideOrders_dropIf (p : Nat) (l : List Order) (rest : List (Nat × List Order)) :
    sideOrders (if l = [] then rest else (p, l) :: rest) = l ++ sideOrders rest := by
  rcases l with _ | ⟨a, l⟩ <;> simp [sideOrders_cons]

theorem matchStep_numOrders {s : BookState} {t : Trade} {s2 : BookState}
    (h : matchStep s = some (t, s2)) : numOrders s2 < numOrders s := by
  obtain ⟨bp, bid, bq, rb, ap, ask, aq, ra, hB, hA, hle⟩ := matchStep_shapes h
  rw [matchStep_run hB hA hle] at h
  have hs2 := congrArg Prod.snd (Option.some.inj h)
  have hone : bid.remainingQuantity - min bid.remainingQuantity ask.remainingQuantity = 0 ∨
      ask.remainingQuantity - min bid.remainingQuantity ask.remainingQuantity = 0 := by
    rcases min_choice bid.remainingQuantity ask.remainingQuantity with hm | hm <;> omega
  subst hs2
  by_cases hbf : bid.remainingQuantity - min bid.remainingQuantity ask.remainingQuantity = 0 <;>
    by_cases haf : ask.remainingQuantity - min bid.remainingQuantity ask.remainingQuantity = 0
  · simp [numOrders, allOrders, hB, hA, hbf, haf, sideOrders_dropIf, sideOrders_cons]
    omega
  · simp [numOrders, allOrders, hB, hA, hbf, haf, sideOrders_dropIf, sideOrders_cons]
  · simp [numOrders, allOrders, hB, hA, hbf, haf, sideOrders_dropIf, sideOrders_cons]
  · rcases hone with h1 | h1 <;> contradiction

theorem matchLoopFuel_converges :
    ∀ (fuel : Nat) (s : BookState), numOrders s < fuel →
      matchStep (matchLoopFuel fuel s).2 = none := by
  intro fuel
  induction fuel with
  | zero => intro s h; exact absurd h (Nat.not_lt_zero _)
  | succ n ih =>
    intro s h
    cases hstep : matchStep s with
    | none => simp [matchLoopFuel, hstep]
    | some ts =>
      obtain ⟨t, s2⟩ := ts
      have hd := matchStep_numOrders hstep
      simp only [matchLoopFuel, hstep]
      exact ih s2 (by omega)

theorem matchLoopFuel_indep :
    ∀ (f1 f2 : Nat) (s : BookState), numOrders s < f1 → numOrders s < f2 →
      matchLoopFuel f1 s = matchLoopFuel f2 s := by
  intro f1
  induction f1 with
  | zero => intro f2 s h1 _; exact absurd h1 (Nat.not_lt_zero _)
  | succ n ih =>
    intro f2 s h1 h2
    cases f2 with
    | zero => exact absurd h2 (Nat.not_lt_zero _)
    | succ m =>
      cases hstep : matchStep s with
      | none => simp [matchLoopFuel, hstep]
      | some ts =>
        obtain ⟨t, s2⟩ := ts
        have hd := matchStep_numOrders hstep
        simp only [matchLoopFuel, hstep]
        rw [ih m s2 (by omega) (by omega)]

/-- Any property preserved by a single matching step is preserved by the
whole loop, whatever the fuel. -/
theorem matchLoopFuel_pres (P : BookState → Prop)
    (hP : ∀ s t s2, matchStep s = some (t, s2) → P s → P s2) :
    ∀ (fuel : Nat) (s : BookState), P s → P (matchLoopFuel fuel s).2 := by
  intro fuel
  induction fuel with
  | zero => intro s h; exact h
  | succ n ih =>
    intro s h
    cases hstep : matchStep s with
    | none => simpa [matchLoopFuel, hstep] using h
    | some ts =>
      obtain ⟨t, s2⟩ := ts
      simp only [matchLoopFuel, hstep]
      exact ih s2 (hP s t s2 hstep h)

theorem matchLoop_pres (P : BookState → Prop)
    (hP : ∀ s t s2, matchStep s = some (t, s2) → P s → P s2)
    (s : BookState) (h : P s) : P (matchLoop s).2 :=
  matchLoopFuel_pres P hP _ s h

theorem matchStep_matchLoop (s : BookState) : matchStep (matchLoop s).2 = none :=
  matchLoopFuel_converges _ s (Nat.lt_succ_self _)

theorem pairwise_keyRel {p : Nat} {q q2 : List Order} {rest : List (Nat × List Order)}
    {r : Nat → Nat → Prop}
    (h : List.Pairwise (fun a b : Nat × List Order => r a.1 b.1) ((p, q) :: rest)) :
    List.Pairwise (fun a b : Nat × List Order => r a.1 b.1) ((p, q2) :: rest) := by
  rcases List.pairwise_cons.1 h with ⟨h1, h2⟩
  exact List.pairwise_cons.2 ⟨fun y hy => h1 y hy, h2⟩

theorem map_eraseById_sublist (i : Nat) (l : List IndexEntry) :
    List.Sublist ((eraseById i l).map IndexEntry.id) (l.map IndexEntry.id) :=
  (eraseById_sublist i l).map IndexEntry.id

set_option maxHeartbeats 1600000 in
theorem matchStep_bookWF {s : BookState} {t : Trade} {s2 : BookState}
    (h : matchStep s = some (t, s2)) (W : BookWF s) : BookWF s2 := by
  obtain ⟨bp, bid, bq, rb, ap, ask, aq, ra, hB, hA, hle⟩ := matchStep_shapes h
  rw [matchStep_run hB hA hle] at h
  have hpair := Option.some.inj h
  rw [Prod.mk.injEq] at hpair
  have hs2 := hpair.2
  set Q := min bid.remainingQuantity ask.remainingQuantity with hQdef
  set B2 : Order := { bid with remainingQuantity := bid.remainingQuantity - Q } with hB2def
  set A2 : Order := { ask with remainingQuantity := ask.remainingQuantity - Q } with hA2def
  have hb2 : s2.bids = (if bid.remainingQuantity - Q = 0 then
      if bq = [] then rb else (bp, bq) :: rb
    else (bp, B2 :: bq) :: rb) := by rw [← hs2]
  have ha2 : s2.asks = (if ask.remainingQuantity - Q = 0 then
      if aq = [] then ra else (ap, aq) :: ra
    else (ap, A2 :: aq) :: ra) := by rw [← hs2]
  have ho2 : s2.orders = (if ask.remainingQuantity - Q = 0 then
      eraseById ask.id
        (if bid.remainingQuantity - Q = 0 then eraseById bid.id s.orders else s.orders)
    else
      (if bid.remainingQuantity - Q = 0 then eraseById bid.id s.orders else s.orders)) := by
    rw [← hs2]
  have hAllS : allOrders s = (bid :: bq) ++ sideOrders rb ++ ((ask :: aq) ++ sideOrders ra) := by
    simp only [allOrders, hB, hA, sideOrders_cons]
  have hperm : List.Perm (allOrders s)
      (bid :: ask :: ((bq ++ sideOrders rb) ++ (aq ++ sideOrders ra))) := by
    rw [hAllS]
    simp only [List.cons_append, List.append_assoc]
    refine List.Perm.cons bid ?_
    have hm : List.Perm ((bq ++ sideOrders rb) ++ ask :: (aq ++ sideOrders ra))
        (ask :: ((bq ++ sideOrders rb) ++ (aq ++ sideOrders ra))) := List.perm_middle
    simpa [List.append_assoc] using hm
  have hbidMem : bid ∈ allOrders s := hperm.symm.subset (List.mem_cons_self _ _)
  have haskMem : ask ∈ allOrders s := hperm.symm.subset
    (List.mem_cons_of_mem _ (List.mem_cons_self _ _))
  have hflatMem : ∀ x ∈ (bq ++ sideOrders rb) ++ (aq ++ sideOrders ra), x ∈ allOrders s :=
    fun x hx => hperm.symm.subset (List.mem_cons_of_mem _ (List.mem_cons_of_mem _ hx))
  have hnd : (List.map Order.id
      (bid :: ask :: ((bq ++ sideOrders rb) ++ (aq ++ sideOrders ra)))).Nodup :=
    ((hperm.map Order.id).nodup_iff).1 W.idsNodup
  rw [List.map_cons, List.map_cons, List.nodup_cons, List.nodup_cons] at hnd
  obtain ⟨hnd1, hnd2, hndrest⟩ := hnd
  have hba : bid.id ≠ ask.id := by
    intro hcontra
    exact hnd1 (hcontra ▸ List.mem_cons_self _ _)
  have hbrest : ∀ x ∈ (bq ++ sideOrders rb) ++ (aq ++ sideOrders ra), x.id ≠ bid.id := by
    intro x hx hcontra
    exact hnd1 (List.mem_cons_of_mem _ (hcontra ▸ List.mem_map_of_mem Order.id hx))
  have harest : ∀ x ∈ (bq ++ sideOrders rb) ++ (aq ++ sideOrders ra), x.id ≠ ask.id := by
    intro x hx hcontra
    exact hnd2 (hcontra ▸ List.mem_map_of_mem Order.id hx)
  have hsb : sideOrders s2.bids =
      (if bid.remainingQuantity - Q = 0 then bq else B2 :: bq) ++ sideOrders rb := by
    rw [hb2]
    by_cases hbf : bid.remainingQuantity - Q = 0
    · rw [if_pos hbf, if_pos hbf, sideOrders_dropIf]
    · rw [if_neg hbf, if_neg hbf, sideOrders_cons]
  have hsa : sideOrders s2.asks =
      (if ask.remainingQuantity - Q = 0 then aq else A2 :: aq) ++ sideOrders ra := by
    rw [ha2]
    by_cases haf : ask.remainingQuantity - Q = 0
    · rw [if_pos haf, if_pos haf, sideOrders_dropIf]
    · rw [if_neg haf, if_neg haf, sideOrders_cons]
  have hAllS2 : allOrders s2 =
      (if bid.remainingQuantity - Q = 0 then bq else B2 :: bq) ++ sideOrders rb ++
      ((if ask.remainingQuantity - Q = 0 then aq else A2 :: aq) ++ sideOrders ra) := by
    simp only [allOrders, hsb, hsa]
  have hmemS2 : ∀ x ∈ allOrders s2,
      (x = B2 ∧ bid.remainingQuantity - Q ≠ 0) ∨ (x = A2 ∧ ask.remainingQuantity - Q ≠ 0) ∨
        x ∈ (bq ++ sideOrders rb) ++ (aq ++ sideOrders ra) := by
    intro x hx
    rw [hAllS2] at hx
    by_cases hbf : bid.remainingQuantity - Q = 0 <;>
      by_cases haf : ask.remainingQuantity - Q = 0
    · rw [if_pos hbf, if_pos haf] at hx
      exact Or.inr (Or.inr hx)
    · rw [if_pos hbf, if_neg haf] at hx
      simp only [List.mem_append, List.mem_cons] at hx
      rcases hx with (hx1 | hx2) | (hx3 | hx4) | hx5
      · exact Or.inr (Or.inr (by simp [hx1]))
      · exact Or.inr (Or.inr (by simp [hx2]))
      · exact Or.inr (Or.inl ⟨hx3, haf⟩)
      · exact Or.inr (Or.inr (by simp [hx4]))
      · exact Or.inr (Or.inr (by simp [hx5]))
    · rw [if_neg hbf, if_pos haf] at hx
      simp only [List.mem_append, List.mem_cons] at hx
      rcases hx with ((hx0 | hx1) | hx2) | hx3 | hx4
      · exact Or.inl ⟨hx0, hbf⟩
      · exact Or.inr (Or.inr (by simp [hx1]))
      · exact Or.inr (Or.inr (by simp [hx2]))
      · exact Or.inr (Or.inr (by simp [hx3]))
      · exact Or.inr (Or.inr (by simp [hx4]))
    · rw [if_neg hbf, if_neg haf] at hx
      simp only [List.mem_append, List.mem_cons] at hx
      rcases hx with ((hx0 | hx1) | hx2) | (hx3 | hx4) | hx5
      · exact Or.inl ⟨hx0, hbf⟩
      · exact Or.inr (Or.inr (by simp [hx1]))
      · exact Or.inr (Or.inr (by simp [hx2]))
      · exact Or.inr (Or.inl ⟨hx3, haf⟩)
      · exact Or.inr (Or.inr (by simp [hx4]))
      · exact Or.inr (Or.inr (by simp [hx5]))
  have hS2mem : ∀ y ∈ (bq ++ sideOrders rb) ++ (aq ++ sideOrders ra), y ∈ allOrders s2 := by
    intro y hy
    rw [hAllS2]
    simp only [List.mem_append] at hy
    simp only [List.mem_append]
    rcases hy with (hy1 | hy2) | hy3 | hy4
    · refine Or.inl (Or.inl ?_)
      by_cases hbf : bid.remainingQuantity - Q = 0
      · rw [if_pos hbf]
        exact hy1
      · rw [if_neg hbf]
        exact List.mem_cons_of_mem _ hy1
    · exact Or.inl (Or.inr hy2)
    · refine Or.inr (Or.inl ?_)
      by_cases haf : ask.remainingQuantity - Q = 0
      · rw [if_pos haf]
        exact hy3
      · rw [if_neg haf]
        exact List.mem_cons_of_mem _ hy3
    · exact Or.inr (Or.inr hy4)
  refine ⟨?_, ?_, ?_, ?_, ?_, ?_, ?_, ?_, ?_, ?_, ?_⟩
  · -- bidsSorted
    rw [hb2]
    have hws := W.bidsSorted
    rw [hB] at hws
    by_cases hbf : bid.remainingQuantity - Q = 0
    · rw [if_pos hbf]
      by_cases hbe : bq = []
      · rw [if_pos hbe]
        exact hws.of_cons
      · rw [if_neg hbe]
        exact pairwise_keyRel (r := fun u v => v < u) hws
    · rw [if_neg hbf]
      exact pairwise_keyRel (r := fun u v => v < u) hws
  · -- asksSorted
    rw [ha2]
    have hws := W.asksSorted
    rw [hA] at hws
    by_cases haf : ask.remainingQuantity - Q = 0
    · rw [if_pos haf]
      by_cases hae : aq = []
      · rw [if_pos hae]
        exact hws.of_cons
      · rw [if_neg hae]
        exact pairwise_keyRel (r := fun u v => u < v) hws
    · rw [if_neg haf]
      exact pairwise_keyRel (r := fun u v => u < v) hws
  · -- bidsNE
    intro pq hpq
    rw [hb2] at hpq
    have hwb := W.bidsNE
    by_cases hbf : bid.remainingQuantity - Q = 0
    · rw [if_pos hbf] at hpq
      by_cases hbe : bq = []
      · rw [if_pos hbe] at hpq
        exact hwb pq (hB ▸ List.mem_cons_of_mem _ hpq)
      · rw [if_neg hbe] at hpq
        rcases List.mem_cons.1 hpq with rfl | hpq2
        · exact hbe
        · exact hwb pq (hB ▸ List.mem_cons_of_mem _ hpq2)
    · rw [if_neg hbf] at hpq
      rcases List.mem_cons.1 hpq with rfl | hpq2
      · exact List.cons_ne_nil _ _
      · exact hwb pq (hB ▸ List.mem_cons_of_mem _ hpq2)
  · -- asksNE
    intro pq hpq
    rw [ha2] at hpq
    have hwa := W.asksNE
    by_cases haf : ask.remainingQuantity - Q = 0
    · rw [if_pos haf] at hpq
      by_cases hae : aq = []
      · rw [if_pos hae] at hpq
        exact hwa pq (hA ▸ List.mem_cons_of_mem _ hpq)
      · rw [if_neg hae] at hpq
        rcases List.mem_cons.1 hpq with rfl | hpq2
        · exact hae
        · exact hwa pq (hA ▸ List.mem_cons_of_mem _ hpq2)
    · rw [if_neg haf] at hpq
      rcases List.mem_cons.1 hpq with rfl | hpq2
      · exact List.cons_ne_nil _ _
      · exact hwa pq (hA ▸ List.mem_cons_of_mem _ hpq2)
  · -- bidsSide
    intro pq hpq o ho
    rw [hb2] at hpq
    have hwb := W.bidsSide
    have hhead := hwb (bp, bid :: bq) (hB ▸ List.mem_cons_self _ _)
    by_cases hbf : bid.remainingQuantity - Q = 0
    · rw [if_pos hbf] at hpq
      by_cases hbe : bq = []
      · rw [if_pos hbe] at hpq
        exact hwb pq (hB ▸ List.mem_cons_of_mem _ hpq) o ho
      · rw [if_neg hbe] at hpq
        rcases List.mem_cons.1 hpq with rfl | hpq2
        · exact hhead o (List.mem_cons_of_mem _ ho)
        · exact hwb pq (hB ▸ List.mem_cons_of_mem _ hpq2) o ho
    · rw [if_neg hbf] at hpq
      rcases List.mem_cons.1 hpq with rfl | hpq2
      · rcases List.mem_cons.1 ho with rfl | ho2
        · have hb0 := hhead bid (List.mem_cons_self _ _)
          exact ⟨hb0.1, hb0.2⟩
        · exact hhead o (List.mem_cons_of_mem _ ho2)
      · exact hwb pq (hB ▸ List.mem_cons_of_mem _ hpq2) o ho
  · -- asksSide
    intro pq hpq o ho
    rw [ha2] at hpq
    have hwa := W.asksSide
    have hhead := hwa (ap, ask :: aq) (hA ▸ List.mem_cons_self _ _)
    by_cases haf : ask.remainingQuantity - Q = 0
    · rw [if_pos haf] at hpq
      by_cases hae : aq = []
      · rw [if_pos hae] at hpq
        exact hwa pq (hA ▸ List.mem_cons_of_mem _ hpq) o ho
      · rw [if_neg hae] at hpq
        rcases List.mem_cons.1 hpq with rfl | hpq2
        · exact hhead o (List.mem_cons_of_mem _ ho)
        · exact hwa pq (hA ▸ List.mem_cons_of_mem _ hpq2) o ho
    · rw [if_neg haf] at hpq
      rcases List.mem_cons.1 hpq with rfl | hpq2
      · rcases List.mem_cons.1 ho with rfl | ho2
        · have ha0 := hhead ask (List.mem_cons_self _ _)
          exact ⟨ha0.1, ha0.2⟩
        · exact hhead o (List.mem_cons_of_mem _ ho2)
      · exact hwa pq (hA ▸ List.mem_cons_of_mem _ hpq2) o ho
  · -- posRem
    intro o ho
    rcases hmemS2 o ho with ⟨rfl, hbf⟩ | ⟨rfl, haf⟩ | hflat
    · have hb0 := W.posRem bid hbidMem
      have hrem : B2.remainingQuantity = bid.remainingQuantity - Q := rfl
      rw [hrem]
      have hsub : bid.remainingQuantity - Q ≤ bid.remainingQuantity := Nat.sub_le _ _
      exact ⟨Nat.pos_of_ne_zero hbf, by omega⟩
    · have ha0 := W.posRem ask haskMem
      have hrem : A2.remainingQuantity = ask.remainingQuantity - Q := rfl
      rw [hrem]
      have hsub : ask.remainingQuantity - Q ≤ ask.remainingQuantity := Nat.sub_le _ _
      exact ⟨Nat.pos_of_ne_zero haf, by omega⟩
    · exact W.posRem o (hflatMem o hflat)
  · -- idsNodup
    rw [hAllS2]
    have hb2id : List.Sublist
        (List.map Order.id (if bid.remainingQuantity - Q = 0 then bq else B2 :: bq))
        (List.map Order.id (bid :: bq)) := by
      by_cases hbf : bid.remainingQuantity - Q = 0
      · rw [if_pos hbf]
        simp only [List.map_cons]
        exact List.Sublist.cons _ (List.Sublist.refl _)
      · rw [if_neg hbf]
        simp only [List.map_cons]
        exact List.Sublist.refl _
    have ha2id : List.Sublist
        (List.map Order.id (if ask.remainingQuantity - Q = 0 then aq else A2 :: aq))
        (List.map Order.id (ask :: aq)) := by
      by_cases haf : ask.remainingQuantity - Q = 0
      · rw [if_pos haf]
        simp only [List.map_cons]
        exact List.Sublist.cons _ (List.Sublist.refl _)
      · rw [if_neg haf]
        simp only [List.map_cons]
        exact List.Sublist.refl _
    have hsubl : List.Sublist
        (List.map Order.id
          ((if bid.remainingQuantity - Q = 0 then bq else B2 :: bq) ++ sideOrders rb ++
            ((if ask.remainingQuantity - Q = 0 then aq else A2 :: aq) ++ sideOrders ra)))
        (List.map Order.id ((bid :: bq) ++ sideOrders rb ++ ((ask :: aq) ++ sideOrders ra))) := by
      simp only [List.map_append]
      exact List.Sublist.append
        (List.Sublist.append hb2id (List.Sublist.refl _))
        (List.Sublist.append ha2id (List.Sublist.refl _))
    have hws := W.idsNodup
    rw [hAllS] at hws
    exact List.Nodup.sublist hsubl hws
  · -- idxComplete
    intro o ho
    have hkeep : ∀ e : IndexEntry, e ∈ s.orders →
        (bid.remainingQuantity - Q = 0 → e.id ≠ bid.id) →
        (ask.remainingQuantity - Q = 0 → e.id ≠ ask.id) → e ∈ s2.orders := by
      intro e he hnb hna
      rw [ho2]
      by_cases hbf : bid.remainingQuantity - Q = 0 <;>
        by_cases haf : ask.remainingQuantity - Q = 0
      · rw [if_pos haf, if_pos hbf]
        exact mem_eraseById_of_ne (mem_eraseById_of_ne he (hnb hbf)) (hna haf)
      · rw [if_neg haf, if_pos hbf]
        exact mem_eraseById_of_ne he (hnb hbf)
      · rw [if_pos haf, if_neg hbf]
        exact mem_eraseById_of_ne he (hna haf)
      · rw [if_neg haf, if_neg hbf]
        exact he
    rcases hmemS2 o ho with ⟨rfl, hbf⟩ | ⟨rfl, haf⟩ | hflat
    · have hent : entryOf B2 = entryOf bid := rfl
      rw [hent]
      refine hkeep _ (W.idxComplete bid hbidMem) ?_ ?_
      · intro hcontra
        exact absurd hcontra hbf
      · intro _
        exact hba
    · have hent : entryOf A2 = entryOf ask := rfl
      rw [hent]
      refine hkeep _ (W.idxComplete ask haskMem) ?_ ?_
      · intro _
        exact fun hcontra => hba hcontra.symm
      · intro hcontra
        exact absurd hcontra haf
    · refine hkeep _ (W.idxComplete o (hflatMem o hflat)) ?_ ?_
      · intro _
        exact hbrest o hflat
      · intro _
        exact harest o hflat
  · -- idxSound
    intro e he
    have hndE : ((eraseById bid.id s.orders).map IndexEntry.id).Nodup :=
      List.Nodup.sublist (map_eraseById_sublist _ _) W.idxNodup
    have hmem : e ∈ s.orders ∧
        (bid.remainingQuantity - Q = 0 → e.id ≠ bid.id) ∧
        (ask.remainingQuantity - Q = 0 → e.id ≠ ask.id) := by
      rw [ho2] at he
      by_cases hbf : bid.remainingQuantity - Q = 0 <;>
        by_cases haf : ask.remainingQuantity - Q = 0
      · rw [if_pos haf, if_pos hbf] at he
        obtain ⟨he1, hne1⟩ := mem_eraseById_nodup hndE he
        obtain ⟨he2, hne2⟩ := mem_eraseById_nodup W.idxNodup he1
        exact ⟨he2, fun _ => hne2, fun _ => hne1⟩
      · rw [if_neg haf, if_pos hbf] at he
        obtain ⟨he2, hne2⟩ := mem_eraseById_nodup W.idxNodup he
        exact ⟨he2, fun _ => hne2, fun hcontra => absurd hcontra haf⟩
      · rw [if_pos haf, if_neg hbf] at he
        obtain ⟨he2, hne2⟩ := mem_eraseById_nodup W.idxNodup he
        exact ⟨he2, fun hcontra => absurd hcontra hbf, fun _ => hne2⟩
      · rw [if_neg haf, if_neg hbf] at he
        exact ⟨he, fun hcontra => absurd hcontra hbf, fun hcontra => absurd hcontra haf⟩
    obtain ⟨heS, hnb, hna⟩ := hmem
    obtain ⟨x, hxMem, hxEq⟩ := W.idxSound e heS
    rcases List.mem_cons.1 (hperm.subset hxMem) with hxb | hx2
    · have heid : e.id = bid.id := by
        rw [← hxEq, hxb]
        rfl
      by_cases hbf : bid.remainingQuantity - Q = 0
      · exact absurd heid (hnb hbf)
      · refine ⟨B2, ?_, ?_⟩
        · rw [hAllS2, if_neg hbf]
          simp
        · rw [← hxEq, hxb]
          rfl
    rcases List.mem_cons.1 hx2 with hxa | hx3
    · have heid : e.id = ask.id := by
        rw [← hxEq, hxa]
        rfl
      by_cases haf : ask.remainingQuantity - Q = 0
      · exact absurd heid (hna haf)
      · refine ⟨A2, ?_, ?_⟩
        · rw [hAllS2, if_neg haf]
          simp
        · rw [← hxEq, hxa]
          rfl
    · exact ⟨x, hS2mem x hx3, hxEq⟩
  · -- idxNodup
    rw [ho2]
    by_cases hbf : bid.remainingQuantity - Q = 0 <;>
      by_cases haf : ask.remainingQuantity - Q = 0
    · rw [if_pos haf, if_pos hbf]
      exact List.Nodup.sublist
        (List.Sublist.trans (map_eraseById_sublist _ _) (map_eraseById_sublist _ _)) W.idxNodup
    · rw [if_neg haf, if_pos hbf]
      exact List.Nodup.sublist (map_eraseById_sublist _ _) W.idxNodup
    · rw [if_pos haf, if_neg hbf]
      exact List.Nodup.sublist (map_eraseById_sublist _ _) W.idxNodup
    · rw [if_neg haf, if_neg hbf]
      exact W.idxNodup

/-! ## Level surgery for `cancelOrder` -/

theorem sideOrders_append (A B : List (Nat × List Order)) :
    sideOrders (A ++ B) = sideOrders A ++ sideOrders B := by
  induction A with
  | nil => simp [sideOrders]
  | cons pq rest ih =>
    obtain ⟨p, q⟩ := pq
    simp [sideOrders_cons, ih]

theorem removeFromSide_append {L1 L2 : List (Nat × List Order)} {q0 : List Order}
    {price i : Nat} (h1 : ∀ pq ∈ L1, pq.1 ≠ price) :
    removeFromSide price i (L1 ++ (price, q0) :: L2) =
      L1 ++ (if (eraseOrder i q0).isEmpty then L2 else (price, eraseOrder i q0) :: L2) := by
  induction L1 with
  | nil =>
    simp [removeFromSide]
  | cons pq rest ih =>
    obtain ⟨p, q⟩ := pq
    have hp : p ≠ price := h1 (p, q) (List.mem_cons_self _ _)
    simp only [List.cons_append, removeFromSide, if_neg hp]
    exact congrArg (List.cons (p, q)) (ih (fun x hx => h1 x (List.mem_cons_of_mem _ hx)))

theorem sideOrders_removeFromSide {L1 L2 : List (Nat × List Order)} {q0 : List Order}
    {price i : Nat} (h1 : ∀ pq ∈ L1, pq.1 ≠ price) :
    sideOrders (removeFromSide price i (L1 ++ (price, q0) :: L2)) =
      sideOrders L1 ++ (eraseOrder i q0 ++ sideOrders L2) := by
  rw [removeFromSide_append h1, sideOrders_append, sideOrders_ite]

theorem mem_removeFromSide_append {L1 L2 : List (Nat × List Order)} {q0 : List Order}
    {price i : Nat} (h1 : ∀ pq ∈ L1, pq.1 ≠ price) {pq : Nat × List Order}
    (h : pq ∈ removeFromSide price i (L1 ++ (price, q0) :: L2)) :
    pq ∈ L1 ∨ pq ∈ L2 ∨ (pq = (price, eraseOrder i q0) ∧ eraseOrder i q0 ≠ []) := by
  rw [removeFromSide_append h1] at h
  rcases List.mem_append.1 h with h2 | h2
  · exact Or.inl h2
  · by_cases he : (eraseOrder i q0).isEmpty
    · rw [if_pos he] at h2
      exact Or.inr (Or.inl h2)
    · rw [if_neg he] at h2
      rcases List.mem_cons.1 h2 with rfl | h3
      · refine Or.inr (Or.inr ⟨rfl, ?_⟩)
        intro hcontra
        rw [hcontra] at he
        exact he rfl
      · exact Or.inr (Or.inl h3)

theorem pairwise_removeFromSide {L1 L2 : List (Nat × List Order)} {q0 q2 : List Order}
    {price : Nat} {r : Nat → Nat → Prop}
    (hp : List.Pairwise (fun a b : Nat × List Order => r a.1 b.1) (L1 ++ (price, q0) :: L2)) :
    List.Pairwise (fun a b : Nat × List Order => r a.1 b.1)
      (L1 ++ (if (q2 : List Order).isEmpty then L2 else (price, q2) :: L2)) := by
  by_cases he : (q2 : List Order).isEmpty
  · rw [if_pos he]
    refine List.Pairwise.sublist ?_ hp
    exact List.Sublist.append (List.Sublist.refl _) (List.Sublist.cons _ (List.Sublist.refl _))
  · rw [if_neg he]
    rw [List.pairwise_append] at hp ⊢
    obtain ⟨hpL1, hpC, hcross⟩ := hp
    rw [List.pairwise_cons] at hpC ⊢
    refine ⟨hpL1, ⟨fun y hy => hpC.1 y hy, hpC.2⟩, ?_⟩
    intro x hx y hy
    rcases List.mem_cons.1 hy with rfl | hy2
    · exact hcross x hx (price, q0) (List.mem_cons_self _ _)
    · exact hcross x hx y (List.mem_cons_of_mem _ hy2)

theorem nodup_map_append_ne {α β : Type} {f : α → β} {A B : List α}
    (h : ((A ++ B).map f).Nodup) : ∀ x ∈ A, ∀ y ∈ B, f x ≠ f y := by
  rw [List.map_append, List.nodup_append] at h
  intro x hx y hy hcontra
  exact h.2.2 (List.mem_map_of_mem f hx) (hcontra ▸ List.mem_map_of_mem f hy)

theorem map_eraseOrder_sublist (i : Nat) (l : List Order) :
    List.Sublist ((eraseOrder i l).map Order.id) (l.map Order.id) :=
  (eraseOrder_sublist i l).map Order.id

/-- The combined effect of `removeFromSide` on one side of a well-formed
book containing a resting order `o0` with the cancelled id at the
cancelled price. -/
theorem removeSide_all {L : List (Nat × List Order)} {i price : Nat} {o0 : Order}
    {r : Nat → Nat → Prop}
    (hirr : ∀ a, ¬ r a a)
    (hsort : List.Pairwise (fun a b : Nat × List Order => r a.1 b.1) L)
    (hside : ∀ pq ∈ L, ∀ o ∈ pq.2, o.price = pq.1)
    (hne : ∀ pq ∈ L, pq.2 ≠ [])
    (hnd : ((sideOrders L).map Order.id).Nodup)
    (ho0 : o0 ∈ sideOrders L) (hid : o0.id = i) (hprice : o0.price = price) :
    (∀ x ∈ sideOrders (removeFromSide price i L), x ∈ sideOrders L ∧ x.id ≠ i) ∧
    (∀ x ∈ sideOrders L, x.id ≠ i → x ∈ sideOrders (removeFromSide price i L)) ∧
    List.Pairwise (fun a b : Nat × List Order => r a.1 b.1) (removeFromSide price i L) ∧
    (∀ pq ∈ removeFromSide price i L,
       pq.2 ≠ [] ∧ ∃ q0, (pq.1, q0) ∈ L ∧ (pq.2 = q0 ∨ pq.2 = eraseOrder i q0)) ∧
    List.Sublist ((sideOrders (removeFromSide price i L)).map Order.id)
      ((sideOrders L).map Order.id) := by
  obtain ⟨pq0, hpq0L, ho0q⟩ := mem_sideOrders.1 ho0
  obtain ⟨pp, q0⟩ := pq0
  have hpp : pp = price := by
    have h1 : o0.price = pp := hside (pp, q0) hpq0L o0 ho0q
    rw [← h1]
    exact hprice
  subst hpp
  obtain ⟨L1, L2, hdec⟩ := List.append_of_mem hpq0L
  subst hdec
  have h1 : ∀ pq ∈ L1, pq.1 ≠ pp := by
    rw [List.pairwise_append] at hsort
    intro pq hpq hcontra
    have hr := hsort.2.2 pq hpq (pp, q0) (List.mem_cons_self _ _)
    rw [hcontra] at hr
    exact hirr pp hr
  have hSO : sideOrders (removeFromSide pp i (L1 ++ (pp, q0) :: L2)) =
      sideOrders L1 ++ (eraseOrder i q0 ++ sideOrders L2) := sideOrders_removeFromSide h1
  have hSOL : sideOrders (L1 ++ (pp, q0) :: L2) = sideOrders L1 ++ (q0 ++ sideOrders L2) := by
    rw [sideOrders_append, sideOrders_cons]
  rw [hSOL] at hnd
  have hndq0 : (q0.map Order.id).Nodup := by
    rw [List.map_append, List.nodup_append] at hnd
    have h2 := hnd.2.1
    rw [List.map_append, List.nodup_append] at h2
    exact h2.1
  have hcross1 := nodup_map_append_ne hnd
  have hnd2 : ((q0 ++ sideOrders L2).map Order.id).Nodup := by
    rw [List.map_append, List.nodup_append] at hnd
    exact hnd.2.1
  have hcross2 := nodup_map_append_ne hnd2
  refine ⟨?_, ?_, ?_, ?_, ?_⟩
  · intro x hx
    rw [hSO] at hx
    rcases List.mem_append.1 hx with hx1 | hx2
    · refine ⟨by rw [hSOL]; exact List.mem_append_left _ hx1, ?_⟩
      intro hcontra
      exact hcross1 x hx1 o0 (List.mem_append_left _ ho0q) (by rw [hcontra, hid])
    · rcases List.mem_append.1 hx2 with hx3 | hx4
      · obtain ⟨hxq, hxne⟩ := mem_eraseOrder_nodup hndq0 hx3
        exact ⟨by rw [hSOL]; exact List.mem_append_right _ (List.mem_append_left _ hxq), hxne⟩
      · refine ⟨by rw [hSOL]; exact List.mem_append_right _ (List.mem_append_right _ hx4), ?_⟩
        intro hcontra
        exact hcross2 o0 ho0q x hx4 (by rw [hcontra, hid])
  · intro x hx hxne
    rw [hSOL] at hx
    rw [hSO]
    rcases List.mem_append.1 hx with hx1 | hx2
    · exact List.mem_append_left _ hx1
    · rcases List.mem_append.1 hx2 with hx3 | hx4
      · exact List.mem_append_right _ (List.mem_append_left _ (mem_eraseOrder_of_ne hx3 hxne))
      · exact List.mem_append_right _ (List.mem_append_right _ hx4)
  · rw [removeFromSide_append h1]
    exact pairwise_removeFromSide hsort
  · intro pq hpq
    rcases mem_removeFromSide_append h1 hpq with hm | hm | hm
    · exact ⟨hne pq (by simp [hm]), pq.2, by simp [hm], Or.inl rfl⟩
    · exact ⟨hne pq (by simp [hm]), pq.2, by simp [hm], Or.inl rfl⟩
    · obtain ⟨hpq2, hq2ne⟩ := hm
      rw [hpq2]
      exact ⟨hq2ne, q0, by simp, Or.inr rfl⟩
  · rw [hSO, hSOL]
    simp only [List.map_append]
    exact List.Sublist.append (List.Sublist.refl _)
      (List.Sublist.append (map_eraseOrder_sublist _ _) (List.Sublist.refl _))

set_option maxHeartbeats 1600000 in
theorem cancelOrder_facts {s : BookState} (W : BookWF s) (i : Nat) :
    BookWF (cancelOrder s i) ∧
    (∀ x ∈ allOrders (cancelOrder s i), x ∈ allOrders s ∧ x.id ≠ i) ∧
    (∀ x ∈ allOrders s, x.id ≠ i → x ∈ allOrders (cancelOrder s i)) ∧
    (∀ pq ∈ (cancelOrder s i).bids, ∃ q0, (pq.1, q0) ∈ s.bids) ∧
    (∀ pq ∈ (cancelOrder s i).asks, ∃ q0, (pq.1, q0) ∈ s.asks) := by
  cases hfind : s.orders.find? (fun e => decide (e.id = i)) with
  | none =>
    have hres : cancelOrder s i = s := by
      simp only [cancelOrder, hfind]
    rw [hres]
    have hnoid : ∀ x ∈ allOrders s, x.id ≠ i := by
      intro x hx hcontra
      have he := W.idxComplete x hx
      have hno := List.find?_eq_none.1 hfind _ he
      simp only [decide_eq_true_eq] at hno
      exact hno hcontra
    exact ⟨W, fun x hx => ⟨hx, hnoid x hx⟩, fun x hx _ => hx,
      fun pq hpq => ⟨pq.2, hpq⟩, fun pq hpq => ⟨pq.2, hpq⟩⟩
  | some e =>
    have hpe : e.id = i := by
      have h2 := List.find?_some hfind
      simpa using h2
    have heMem : e ∈ s.orders := List.mem_of_find?_eq_some hfind
    obtain ⟨o0, ho0Mem, ho0Eq⟩ := W.idxSound e heMem
    have ho0id : o0.id = i := by
      have h2 : (entryOf o0).id = e.id := by rw [ho0Eq]
      rw [← hpe, ← h2]
      rfl
    have ho0price : o0.price = e.price := by
      have h2 : (entryOf o0).price = e.price := by rw [ho0Eq]
      rw [← h2]
      rfl
    have ho0side : o0.side = e.side := by
      have h2 : (entryOf o0).side = e.side := by rw [ho0Eq]
      rw [← h2]
      rfl
    have hndsplit := W.idsNodup
    rw [show allOrders s = sideOrders s.bids ++ sideOrders s.asks from rfl] at hndsplit
    have hndb : ((sideOrders s.bids).map Order.id).Nodup := by
      rw [List.map_append, List.nodup_append] at hndsplit
      exact hndsplit.1
    have hnda : ((sideOrders s.asks).map Order.id).Nodup := by
      rw [List.map_append, List.nodup_append] at hndsplit
      exact hndsplit.2.1
    have hcrossBA := nodup_map_append_ne hndsplit
    cases hside : e.side with
    | BUY =>
      have hres : cancelOrder s i =
          ⟨removeFromSide e.price i s.bids, s.asks, eraseById i s.orders⟩ := by
        simp only [cancelOrder, hfind, hside]
      have ho0b : o0 ∈ sideOrders s.bids := by
        rcases List.mem_append.1
            (show o0 ∈ sideOrders s.bids ++ sideOrders s.asks from ho0Mem) with h2 | h2
        · exact h2
        · exfalso
          obtain ⟨pq, hpqm, ho0q⟩ := mem_sideOrders.1 h2
          have h3 := (W.asksSide pq hpqm o0 ho0q).1
          rw [ho0side, hside] at h3
          exact OrderSide.noConfusion h3
      obtain ⟨hA, hB, hC, hD, hE⟩ := removeSide_all (r := fun a b => b < a)
        (fun a h2 => lt_irrefl a h2) W.bidsSorted
        (fun pq hpq o ho => (W.bidsSide pq hpq o ho).2) W.bidsNE hndb ho0b ho0id ho0price
      have hAsksNe : ∀ x ∈ sideOrders s.asks, x.id ≠ i := by
        intro x hx hcontra
        exact hcrossBA o0 ho0b x hx (by rw [ho0id, hcontra])
      have hmem2 : ∀ x ∈ allOrders (cancelOrder s i), x ∈ allOrders s ∧ x.id ≠ i := by
        intro x hx
        rw [hres] at hx
        rcases List.mem_append.1 hx with hx1 | hx2
        · obtain ⟨hxm, hxne⟩ := hA x hx1
          exact ⟨List.mem_append_left _ hxm, hxne⟩
        · exact ⟨List.mem_append_right _ hx2, hAsksNe x hx2⟩
      have hmem3 : ∀ x ∈ allOrders s, x.id ≠ i → x ∈ allOrders (cancelOrder s i) := by
        intro x hx hxne
        rw [hres]
        rcases List.mem_append.1
            (show x ∈ sideOrders s.bids ++ sideOrders s.asks from hx) with hx1 | hx2
        · exact List.mem_append_left _ (hB x hx1 hxne)
        · exact List.mem_append_right _ hx2
      refine ⟨⟨?_, ?_, ?_, ?_, ?_, ?_, ?_, ?_, ?_, ?_, ?_⟩, hmem2, hmem3, ?_, ?_⟩
      · rw [hres]
        exact hC
      · rw [hres]
        exact W.asksSorted
      · rw [hres]
        intro pq hpq
        exact (hD pq hpq).1
      · rw [hres]
        exact W.asksNE
      · rw [hres]
        intro pq hpq o ho
        obtain ⟨q0, hq0mem, hor⟩ := (hD pq hpq).2
        have hoq0 : o ∈ q0 := by
          rcases hor with h2 | h2
          · rw [← h2]
            exact ho
          · exact (eraseOrder_sublist i q0).subset (h2 ▸ ho)
        exact W.bidsSide (pq.1, q0) hq0mem o hoq0
      · rw [hres]
        exact W.asksSide
      · intro o ho
        exact W.posRem o (hmem2 o ho).1
      · rw [hres]
        have hsub : List.Sublist
            (List.map Order.id (sideOrders (removeFromSide e.price i s.bids) ++ sideOrders s.asks))
            (List.map Order.id (sideOrders s.bids ++ sideOrders s.asks)) := by
          simp only [List.map_append]
          exact List.Sublist.append hE (List.Sublist.refl _)
        exact List.Nodup.sublist hsub hndsplit
      · intro o ho
        obtain ⟨hom, hone⟩ := hmem2 o ho
        have he2 := W.idxComplete o hom
        rw [hres]
        exact mem_eraseById_of_ne he2 hone
      · intro e2 he2
        rw [hres] at he2
        obtain ⟨he3, he4⟩ := mem_eraseById_nodup W.idxNodup he2
        obtain ⟨x, hxm, hxe⟩ := W.idxSound e2 he3
        have hxne : x.id ≠ i := by
          intro hcontra
          apply he4
          rw [← hxe]
          exact hcontra
        exact ⟨x, hmem3 x hxm hxne, hxe⟩
      · rw [hres]
        exact List.Nodup.sublist (map_eraseById_sublist _ _) W.idxNodup
      · rw [hres]
        intro pq hpq
        obtain ⟨q0, hq0mem, hor⟩ := (hD pq hpq).2
        exact ⟨q0, hq0mem⟩
      · rw [hres]
        intro pq hpq
        exact ⟨pq.2, hpq⟩
    | SELL =>
      have hres : cancelOrder s i =
          ⟨s.bids, removeFromSide e.price i s.asks, eraseById i s.orders⟩ := by
        simp only [cancelOrder, hfind, hside]
      have ho0a : o0 ∈ sideOrders s.asks := by
        rcases List.mem_append.1
            (show o0 ∈ sideOrders s.bids ++ sideOrders s.asks from ho0Mem) with h2 | h2
        · exfalso
          obtain ⟨pq, hpqm, ho0q⟩ := mem_sideOrders.1 h2
          have h3 := (W.bidsSide pq hpqm o0 ho0q).1
          rw [ho0side, hside] at h3
          exact OrderSide.noConfusion h3
        · exact h2
      obtain ⟨hA, hB, hC, hD, hE⟩ := removeSide_all (r := fun a b => a < b)
        (fun a h2 => lt_irrefl a h2) W.asksSorted
        (fun pq hpq o ho => (W.asksSide pq hpq o ho).2) W.asksNE hnda ho0a ho0id ho0price
      have hBidsNe : ∀ x ∈ sideOrders s.bids, x.id ≠ i := by
        intro x hx hcontra
        exact hcrossBA x hx o0 ho0a (by rw [ho0id, hcontra])
      have hmem2 : ∀ x ∈ allOrders (cancelOrder s i), x ∈ allOrders s ∧ x.id ≠ i := by
        intro x hx
        rw [hres] at hx
        rcases List.mem_append.1 hx with hx1 | hx2
        · exact ⟨List.mem_append_left _ hx1, hBidsNe x hx1⟩
        · obtain ⟨hxm, hxne⟩ := hA x hx2
          exact ⟨List.mem_append_right _ hxm, hxne⟩
      have hmem3 : ∀ x ∈ allOrders s, x.id ≠ i → x ∈ allOrders (cancelOrder s i) := by
        intro x hx hxne
        rw [hres]
        rcases List.mem_append.1
            (show x ∈ sideOrders s.bids ++ sideOrders s.asks from hx) with hx1 | hx2
        · exact List.mem_append_left _ hx1
        · exact List.mem_append_right _ (hB x hx2 hxne)
      refine ⟨⟨?_, ?_, ?_, ?_, ?_, ?_, ?_, ?_, ?_, ?_, ?_⟩, hmem2, hmem3, ?_, ?_⟩
      · rw [hres]
        exact W.bidsSorted
      · rw [hres]
        exact hC
      · rw [hres]
        exact W.bidsNE
      · rw [hres]
        intro pq hpq
        exact (hD pq hpq).1
      · rw [hres]
        exact W.bidsSide
      · rw [hres]
        intro pq hpq o ho
        obtain ⟨q0, hq0mem, hor⟩ := (hD pq hpq).2
        have hoq0 : o ∈ q0 := by
          rcases hor with h2 | h2
          · rw [← h2]
            exact ho
          · exact (eraseOrder_sublist i q0).subset (h2 ▸ ho)
        exact W.asksSide (pq.1, q0) hq0mem o hoq0
      · intro o ho
        exact W.posRem o (hmem2 o ho).1
      · rw [hres]
        have hsub : List.Sublist
            (List.map Order.id (sideOrders s.bids ++ sideOrders (removeFromSide e.price i s.asks)))
            (List.map Order.id (sideOrders s.bids ++ sideOrders s.asks)) := by
          simp only [List.map_append]
          exact List.Sublist.append (List.Sublist.refl _) hE
        exact List.Nodup.sublist hsub hndsplit
      · intro o ho
        obtain ⟨hom, hone⟩ := hmem2 o ho
        have he2 := W.idxComplete o hom
        rw [hres]
        exact mem_eraseById_of_ne he2 hone
      · intro e2 he2
        rw [hres] at he2
        obtain ⟨he3, he4⟩ := mem_eraseById_nodup W.idxNodup he2
        obtain ⟨x, hxm, hxe⟩ := W.idxSound e2 he3
        have hxne : x.id ≠ i := by
          intro hcontra
          apply he4
          rw [← hxe]
          exact hcontra
        exact ⟨x, hmem3 x hxm hxne, hxe⟩
      · rw [hres]
        exact List.Nodup.sublist (map_eraseById_sublist _ _) W.idxNodup
      · rw [hres]
        intro pq hpq
        exact ⟨pq.2, hpq⟩
      · rw [hres]
        intro pq hpq
        obtain ⟨q0, hq0mem, hor⟩ := (hD pq hpq).2
        exact ⟨q0, hq0mem⟩

/-! ## Insertion lemmas -/

theorem sideOrders_insertBidLevel (price : Nat) (o : Order) (L : List (Nat × List Order)) :
    List.Perm (sideOrders (insertBidLevel price o L)) (o :: sideOrders L) := by
  induction L with
  | nil => simp [insertBidLevel, sideOrders]
  | cons pq rest ih =>
    obtain ⟨p, q⟩ := pq
    by_cases hpe : price = p
    · rw [insertBidLevel, if_pos hpe]
      rw [sideOrders_cons, sideOrders_cons]
      have h1 : List.Perm (q ++ [o]) (o :: q) := List.perm_append_singleton o q
      have h2 := h1.append_right (sideOrders rest)
      exact h2
    · by_cases hlt : p < price
      · rw [insertBidLevel, if_neg hpe, if_pos hlt]
        simp [sideOrders_cons]
      · rw [insertBidLevel, if_neg hpe, if_neg hlt]
        rw [sideOrders_cons, sideOrders_cons]
        exact (ih.append_left q).trans List.perm_middle

theorem sideOrders_insertAskLevel (price : Nat) (o : Order) (L : List (Nat × List Order)) :
    List.Perm (sideOrders (insertAskLevel price o L)) (o :: sideOrders L) := by
  induction L with
  | nil => simp [insertAskLevel, sideOrders]
  | cons pq rest ih =>
    obtain ⟨p, q⟩ := pq
    by_cases hpe : price = p
    · rw [insertAskLevel, if_pos hpe]
      rw [sideOrders_cons, sideOrders_cons]
      have h1 : List.Perm (q ++ [o]) (o :: q) := List.perm_append_singleton o q
      have h2 := h1.append_right (sideOrders rest)
      exact h2
    · by_cases hlt : price < p
      · rw [insertAskLevel, if_neg hpe, if_pos hlt]
        simp [sideOrders_cons]
      · rw [insertAskLevel, if_neg hpe, if_neg hlt]
        rw [sideOrders_cons, sideOrders_cons]
        exact (ih.append_left q).trans List.perm_middle

theorem mem_insertBidLevel {price : Nat} {o : Order} {L : List (Nat × List Order)}
    {pq : Nat × List Order} (h : pq ∈ insertBidLevel price o L) :
    pq ∈ L ∨ pq = (price, [o]) ∨ ∃ q0, (price, q0) ∈ L ∧ pq = (price, q0 ++ [o]) := by
  induction L with
  | nil =>
    rw [insertBidLevel] at h
    rcases List.mem_cons.1 h with rfl | h2
    · exact Or.inr (Or.inl rfl)
    · simp at h2
  | cons pq1 rest ih =>
    obtain ⟨p, q⟩ := pq1
    by_cases hpe : price = p
    · rw [insertBidLevel, if_pos hpe] at h
      rcases List.mem_cons.1 h with rfl | h2
      · subst hpe
        exact Or.inr (Or.inr ⟨q, List.mem_cons_self _ _, rfl⟩)
      · exact Or.inl (List.mem_cons_of_mem _ h2)
    · by_cases hlt : p < price
      · rw [insertBidLevel, if_neg hpe, if_pos hlt] at h
        rcases List.mem_cons.1 h with rfl | h2
        · exact Or.inr (Or.inl rfl)
        · exact Or.inl h2
      · rw [insertBidLevel, if_neg hpe, if_neg hlt] at h
        rcases List.mem_cons.1 h with rfl | h2
        · exact Or.inl (List.mem_cons_self _ _)
        · rcases ih h2 with h3 | h3 | ⟨q0, h4, h5⟩
          · exact Or.inl (List.mem_cons_of_mem _ h3)
          · exact Or.inr (Or.inl h3)
          · exact Or.inr (Or.inr ⟨q0, List.mem_cons_of_mem _ h4, h5⟩)

theorem mem_insertAskLevel {price : Nat} {o : Order} {L : List (Nat × List Order)}
    {pq : Nat × List Order} (h : pq ∈ insertAskLevel price o L) :
    pq ∈ L ∨ pq = (price, [o]) ∨ ∃ q0, (price, q0) ∈ L ∧ pq = (price, q0 ++ [o]) := by
  induction L with
  | nil =>
    rw [insertAskLevel] at h
    rcases List.mem_cons.1 h with rfl | h2
    · exact Or.inr (Or.inl rfl)
    · simp at h2
  | cons pq1 rest ih =>
    obtain ⟨p, q⟩ := pq1
    by_cases hpe : price = p
    · rw [insertAskLevel, if_pos hpe] at h
      rcases List.mem_cons.1 h with rfl | h2
      · subst hpe
        exact Or.inr (Or.inr ⟨q, List.mem_cons_self _ _, rfl⟩)
      · exact Or.inl (List.mem_cons_of_mem _ h2)
    · by_cases hlt : price < p
      · rw [insertAskLevel, if_neg hpe, if_pos hlt] at h
        rcases List.mem_cons.1 h with rfl | h2
        · exact Or.inr (Or.inl rfl)
        · exact Or.inl h2
      · rw [insertAskLevel, if_neg hpe, if_neg hlt] at h
        rcases List.mem_cons.1 h with rfl | h2
        · exact Or.inl (List.mem_cons_self _ _)
        · rcases ih h2 with h3 | h3 | ⟨q0, h4, h5⟩
          · exact Or.inl (List.mem_cons_of_mem _ h3)
          · exact Or.inr (Or.inl h3)
          · exact Or.inr (Or.inr ⟨q0, List.mem_cons_of_mem _ h4, h5⟩)

theorem pairwise_insertBidLevel {price : Nat} {o : Order} {L : List (Nat × List Order)}
    (h : List.Pairwise (fun a b : Nat × List Order => b.1 < a.1) L) :
    List.Pairwise (fun a b : Nat × List Order => b.1 < a.1) (insertBidLevel price o L) := by
  induction L with
  | nil => simp [insertBidLevel]
  | cons pq1 rest ih =>
    obtain ⟨p, q⟩ := pq1
    by_cases hpe : price = p
    · rw [insertBidLevel, if_pos hpe]
      exact pairwise_keyRel (r := fun u v => v < u) h
    · by_cases hlt : p < price
      · rw [insertBidLevel, if_neg hpe, if_pos hlt]
        rw [List.pairwise_cons]
        refine ⟨?_, h⟩
        intro y hy
        rcases List.mem_cons.1 hy with rfl | hy2
        · exact hlt
        · have h2 := (List.pairwise_cons.1 h).1 y hy2
          exact lt_trans h2 hlt
      · rw [insertBidLevel, if_neg hpe, if_neg hlt]
        rw [List.pairwise_cons] at h ⊢
        refine ⟨?_, ih h.2⟩
        intro y hy
        have hpp : price < p := by
          rcases Nat.lt_trichotomy price p with h3 | h3 | h3
          · exact h3
          · exact absurd h3 hpe
          · exact absurd h3 hlt
        rcases mem_insertBidLevel hy with h3 | h3 | ⟨q0, h4, h5⟩
        · exact h.1 y h3
        · rw [h3]
          exact hpp
        · rw [h5]
          exact hpp

theorem pairwise_insertAskLevel {price : Nat} {o : Order} {L : List (Nat × List Order)}
    (h : List.Pairwise (fun a b : Nat × List Order => a.1 < b.1) L) :
    List.Pairwise (fun a b : Nat × List Order => a.1 < b.1) (insertAskLevel price o L) := by
  induction L with
  | nil => simp [insertAskLevel]
  | cons pq1 rest ih =>
    obtain ⟨p, q⟩ := pq1
    by_cases hpe : price = p
    · rw [insertAskLevel, if_pos hpe]
      exact pairwise_keyRel (r := fun u v => u < v) h
    · by_cases hlt : price < p
      · rw [insertAskLevel, if_neg hpe, if_pos hlt]
        rw [List.pairwise_cons]
        refine ⟨?_, h⟩
        intro y hy
        rcases List.mem_cons.1 hy with rfl | hy2
        · exact hlt
        · have h2 := (List.pairwise_cons.1 h).1 y hy2
          exact lt_trans hlt h2
      · rw [insertAskLevel, if_neg hpe, if_neg hlt]
        rw [List.pairwise_cons] at h ⊢
        refine ⟨?_, ih h.2⟩
        intro y hy
        have hpp : p < price := by
          rcases Nat.lt_trichotomy price p with h3 | h3 | h3
          · exact absurd h3 hlt
          · exact absurd h3 hpe
          · exact h3
        rcases mem_insertAskLevel hy with h3 | h3 | ⟨q0, h4, h5⟩
        · exact h.1 y h3
        · rw [h3]
          exact hpp
        · rw [h5]
          exact hpp

set_option maxHeartbeats 1600000 in
theorem insertOrder_bookWF {s : BookState} {o : Order} (W : BookWF s) (hv : ValidOrder o)
    (hfresh : o.id ∉ (allOrders s).map Order.id) :
    BookWF (insertOrder s o) ∧ List.Perm (allOrders (insertOrder s o)) (o :: allOrders s) := by
  obtain ⟨hvp, hvq, hvb, hvr⟩ := hv
  have hidx : entryOf o ∉ s.orders → True := fun _ => trivial
  have hndIdx : (List.map IndexEntry.id (s.orders ++ [entryOf o])).Nodup := by
    rw [List.map_append, List.nodup_append]
    refine ⟨W.idxNodup, List.nodup_singleton _, ?_⟩
    intro a ha hb
    simp only [List.map_cons, List.map_nil, List.mem_singleton] at hb
    obtain ⟨e2, he2, he2id⟩ := List.mem_map.1 ha
    obtain ⟨x, hxm, hxe⟩ := W.idxSound e2 he2
    apply hfresh
    have hxid : x.id = o.id := by
      have h3 : (entryOf x).id = e2.id := by rw [hxe]
      rw [show (entryOf x).id = x.id from rfl] at h3
      rw [h3, he2id, hb]
      rfl
    rw [← hxid]
    exact List.mem_map_of_mem Order.id hxm
  have hsound2 : ∀ e2 ∈ s.orders ++ [entryOf o],
      (∃ x ∈ allOrders s, entryOf x = e2) ∨ e2 = entryOf o := by
    intro e2 he2
    rcases List.mem_append.1 he2 with h2 | h2
    · exact Or.inl (W.idxSound e2 h2)
    · simp only [List.mem_singleton] at h2
      exact Or.inr h2
  cases he : o.side with
  | BUY =>
    have hres : insertOrder s o =
        ⟨insertBidLevel o.price o s.bids, s.asks, s.orders ++ [entryOf o]⟩ := by
      simp only [insertOrder, he]
    have hperm : List.Perm (allOrders (insertOrder s o)) (o :: allOrders s) := by
      rw [hres]
      show List.Perm (sideOrders (insertBidLevel o.price o s.bids) ++ sideOrders s.asks) _
      have h1 := (sideOrders_insertBidLevel o.price o s.bids).append_right (sideOrders s.asks)
      simpa using h1
    refine ⟨⟨?_, ?_, ?_, ?_, ?_, ?_, ?_, ?_, ?_, ?_, ?_⟩, hperm⟩
    · rw [hres]
      exact pairwise_insertBidLevel W.bidsSorted
    · rw [hres]
      exact W.asksSorted
    · rw [hres]
      intro pq hpq
      rcases mem_insertBidLevel hpq with h2 | h2 | ⟨q0, h3, h4⟩
      · exact W.bidsNE pq h2
      · rw [h2]
        exact List.cons_ne_nil _ _
      · rw [h4]
        simp
    · rw [hres]
      exact W.asksNE
    · rw [hres]
      intro pq hpq o2 ho2
      rcases mem_insertBidLevel hpq with h2 | h2 | ⟨q0, h3, h4⟩
      · exact W.bidsSide pq h2 o2 ho2
      · rw [h2] at ho2 ⊢
        simp only [List.mem_singleton] at ho2
        rw [ho2]
        exact ⟨he, rfl⟩
      · rw [h4] at ho2 ⊢
        rcases List.mem_append.1 ho2 with h5 | h5
        · have h6 := W.bidsSide (o.price, q0) h3 o2 h5
          exact ⟨h6.1, h6.2⟩
        · simp only [List.mem_singleton] at h5
          rw [h5]
          exact ⟨he, rfl⟩
    · rw [hres]
      exact W.asksSide
    · intro o2 ho2
      rcases List.mem_cons.1 (hperm.subset ho2) with rfl | h2
      · rw [hvr]
        exact ⟨hvq, hvb⟩
      · exact W.posRem o2 h2
    · have h1 := (hperm.map Order.id).nodup_iff
      rw [h1]
      rw [List.map_cons, List.nodup_cons]
      exact ⟨hfresh, W.idsNodup⟩
    · intro o2 ho2
      rw [hres]
      rcases List.mem_cons.1 (hperm.subset ho2) with rfl | h2
      · exact List.mem_append_right _ (List.mem_singleton.2 rfl)
      · exact List.mem_append_left _ (W.idxComplete o2 h2)
    · intro e2 he2
      rw [hres] at he2
      rcases hsound2 e2 he2 with ⟨x, hxm, hxe⟩ | h2
      · exact ⟨x, hperm.symm.subset (List.mem_cons_of_mem _ hxm), hxe⟩
      · exact ⟨o, hperm.symm.subset (List.mem_cons_self _ _), h2.symm⟩
    · rw [hres]
      exact hndIdx
  | SELL =>
    have hres : insertOrder s o =
        ⟨s.bids, insertAskLevel o.price o s.asks, s.orders ++ [entryOf o]⟩ := by
      simp only [insertOrder, he]
    have hperm : List.Perm (allOrders (insertOrder s o)) (o :: allOrders s) := by
      rw [hres]
      show List.Perm (sideOrders s.bids ++ sideOrders (insertAskLevel o.price o s.asks)) _
      have h1 := (sideOrders_insertAskLevel o.price o s.asks).append_left (sideOrders s.bids)
      exact h1.trans List.perm_middle
    refine ⟨⟨?_, ?_, ?_, ?_, ?_, ?_, ?_, ?_, ?_, ?_, ?_⟩, hperm⟩
    · rw [hres]
      exact W.bidsSorted
    · rw [hres]
      exact pairwise_insertAskLevel W.asksSorted
    · rw [hres]
      exact W.bidsNE
    · rw [hres]
      intro pq hpq
      rcases mem_insertAskLevel hpq with h2 | h2 | ⟨q0, h3, h4⟩
      · exact W.asksNE pq h2
      · rw [h2]
        exact List.cons_ne_nil _ _
      · rw [h4]
        simp
    · rw [hres]
      exact W.bidsSide
    · rw [hres]
      intro pq hpq o2 ho2
      rcases mem_insertAskLevel hpq with h2 | h2 | ⟨q0, h3, h4⟩
      · exact W.asksSide pq h2 o2 ho2
      · rw [h2] at ho2 ⊢
        simp only [List.mem_singleton] at ho2
        rw [ho2]
        exact ⟨he, rfl⟩
      · rw [h4] at ho2 ⊢
        rcases List.mem_append.1 ho2 with h5 | h5
        · have h6 := W.asksSide (o.price, q0) h3 o2 h5
          exact ⟨h6.1, h6.2⟩
        · simp only [List.mem_singleton] at h5
          rw [h5]
          exact ⟨he, rfl⟩
    · intro o2 ho2
      rcases List.mem_cons.1 (hperm.subset ho2) with rfl | h2
      · rw [hvr]
        exact ⟨hvq, hvb⟩
      · exact W.posRem o2 h2
    · have h1 := (hperm.map Order.id).nodup_iff
      rw [h1]
      rw [List.map_cons, List.nodup_cons]
      exact ⟨hfresh, W.idsNodup⟩
    · intro o2 ho2
      rw [hres]
      rcases List.mem_cons.1 (hperm.subset ho2) with rfl | h2
      · exact List.mem_append_right _ (List.mem_singleton.2 rfl)
      · exact List.mem_append_left _ (W.idxComplete o2 h2)
    · intro e2 he2
      rw [hres] at he2
      rcases hsound2 e2 he2 with ⟨x, hxm, hxe⟩ | h2
      · exact ⟨x, hperm.symm.subset (List.mem_cons_of_mem _ hxm), hxe⟩
      · exact ⟨o, hperm.symm.subset (List.mem_cons_self _ _), h2.symm⟩
    · rw [hres]
      exact hndIdx

/-! ## Post-loop facts: no cross, FOK cleanup -/

theorem noCross_of_matchStep_none {s : BookState} (W : BookWF s)
    (h : matchStep s = none) : NoCross s := by
  intro pb hpb pa hpa
  rcases hB : s.bids with _ | ⟨⟨hp, hq⟩, rb⟩
  · rw [hB] at hpb
    simp at hpb
  rcases hA : s.asks with _ | ⟨⟨ap2, aq2⟩, ra⟩
  · rw [hA] at hpa
    simp at hpa
  have hqne := W.bidsNE (hp, hq) (hB ▸ List.mem_cons_self _ _)
  have hane := W.asksNE (ap2, aq2) (hA ▸ List.mem_cons_self _ _)
  rcases hq with _ | ⟨b0, bq⟩
  · exact absurd rfl hqne
  rcases aq2 with _ | ⟨a0, aq⟩
  · exact absurd rfl hane
  have hlt : hp < ap2 := by
    by_contra hcontra
    rw [matchStep_run hB hA (Nat.not_lt.1 hcontra)] at h
    exact Option.noConfusion h
  have hpb2 : pb.1 ≤ hp := by
    rw [hB] at hpb
    rcases List.mem_cons.1 hpb with rfl | h2
    · exact Nat.le_refl _
    · have h3 := (List.pairwise_cons.1 (hB ▸ W.bidsSorted)).1 pb h2
      exact le_of_lt h3
  have hpa2 : ap2 ≤ pa.1 := by
    rw [hA] at hpa
    rcases List.mem_cons.1 hpa with rfl | h2
    · exact Nat.le_refl _
    · have h3 := (List.pairwise_cons.1 (hA ▸ W.asksSorted)).1 pa h2
      exact le_of_lt h3
  omega

theorem mem_collectFokSide {L : List (Nat × List Order)} {o : Order}
    (ho : o ∈ sideOrders L) (ht : o.type = OrderType.FOK) (hu : o.remainingQuantity ≠ 0) :
    o.id ∈ collectFokSide L := by
  induction L with
  | nil => simp [sideOrders] at ho
  | cons pq rest ih =>
    obtain ⟨p, q⟩ := pq
    rw [sideOrders_cons] at ho
    rw [collectFokSide]
    rcases List.mem_append.1 ho with h2 | h2
    · refine List.mem_append_left _ (List.mem_map.2 ⟨o, ?_, rfl⟩)
      refine List.mem_filter.2 ⟨h2, ?_⟩
      simp [ht, Order.isFilled, hu]
    · exact List.mem_append_right _ (ih h2)

theorem cancelAll_facts (ids : List Nat) :
    ∀ s : BookState, BookWF s →
      BookWF (cancelAll ids s) ∧
      (∀ x ∈ allOrders (cancelAll ids s), x ∈ allOrders s ∧ x.id ∉ ids) ∧
      (∀ pq ∈ (cancelAll ids s).bids, ∃ q0, (pq.1, q0) ∈ s.bids) ∧
      (∀ pq ∈ (cancelAll ids s).asks, ∃ q0, (pq.1, q0) ∈ s.asks) := by
  induction ids with
  | nil =>
    intro s W
    exact ⟨W, fun x hx => ⟨hx, by simp⟩, fun pq hpq => ⟨pq.2, hpq⟩, fun pq hpq => ⟨pq.2, hpq⟩⟩
  | cons i rest ih =>
    intro s W
    obtain ⟨W1, hm1, hkeep1, hb1, ha1⟩ := cancelOrder_facts W i
    obtain ⟨W2, hm2, hb2, ha2⟩ := ih (cancelOrder s i) W1
    have hstep : cancelAll (i :: rest) s = cancelAll rest (cancelOrder s i) := rfl
    rw [hstep]
    refine ⟨W2, ?_, ?_, ?_⟩
    · intro x hx
      obtain ⟨hx1, hx2⟩ := hm2 x hx
      obtain ⟨hx3, hx4⟩ := hm1 x hx1
      refine ⟨hx3, ?_⟩
      intro hcontra
      rcases List.mem_cons.1 hcontra with h5 | h5
      · exact hx4 h5
      · exact hx2 h5
    · intro pq hpq
      obtain ⟨q0, hq0⟩ := hb2 pq hpq
      obtain ⟨q1, hq1⟩ := hb1 (pq.1, q0) hq0
      exact ⟨q1, hq1⟩
    · intro pq hpq
      obtain ⟨q0, hq0⟩ := ha2 pq hpq
      obtain ⟨q1, hq1⟩ := ha1 (pq.1, q0) hq0
      exact ⟨q1, hq1⟩

theorem matchOrders_post {s : BookState} (W : BookWF s) :
    BookWF (matchOrders s).2 ∧ NoCross (matchOrders s).2 ∧ NoFok (matchOrders s).2 := by
  have W1 : BookWF (matchLoop s).2 :=
    matchLoop_pres BookWF (fun s1 t s2 hstep W1 => matchStep_bookWF hstep W1) s W
  have hnone := matchStep_matchLoop s
  have hNC1 : NoCross (matchLoop s).2 := noCross_of_matchStep_none W1 hnone
  have hres : (matchOrders s).2 =
      cancelAll (collectFokSide (matchLoop s).2.bids ++ collectFokSide (matchLoop s).2.asks)
        (matchLoop s).2 := rfl
  rw [hres]
  obtain ⟨W2, hm2, hb2, ha2⟩ := cancelAll_facts _ (matchLoop s).2 W1
  refine ⟨W2, ?_, ?_⟩
  · intro pb hpb pa hpa
    obtain ⟨qb, hqb⟩ := hb2 pb hpb
    obtain ⟨qa, hqa⟩ := ha2 pa hpa
    exact hNC1 (pb.1, qb) hqb (pa.1, qa) hqa
  · intro x hx ht
    obtain ⟨hx1, hx2⟩ := hm2 x hx
    have hpos := (W1.posRem x hx1).1
    apply hx2
    rcases List.mem_append.1
        (show x ∈ sideOrders (matchLoop s).2.bids ++ sideOrders (matchLoop s).2.asks
          from hx1) with h2 | h2
    · exact List.mem_append_left _ (mem_collectFokSide h2 ht (by omega))
    · exact List.mem_append_right _ (mem_collectFokSide h2 ht (by omega))

theorem find?_isSome_of_mem {α : Type} {p : α → Bool} {l : List α} {x : α}
    (hx : x ∈ l) (hpx : p x = true) : (l.find? p).isSome = true := by
  induction l with
  | nil => simp at hx
  | cons a rest ih =>
    cases hpa : p a
    · rw [List.find?_cons_of_neg _ (by simp [hpa])]
      rcases List.mem_cons.1 hx with rfl | h2
      · rw [hpa] at hpx
        exact Bool.noConfusion hpx
      · exact ih h2
    · rw [List.find?_cons_of_pos _ hpa]
      rfl

theorem addOrder_post {s : BookState} {o : Order} (W : BookWF s) (hNC : NoCross s)
    (hNF : NoFok s) (hv : ValidOrder o) :
    BookWF (addOrder s o).2 ∧ NoCross (addOrder s o).2 ∧ NoFok (addOrder s o).2 := by
  by_cases hdup : (s.orders.find? (fun e => decide (e.id = o.id))).isSome = true
  · have hres : (addOrder s o).2 = s := by
      simp only [addOrder, if_pos hdup]
    rw [hres]
    exact ⟨W, hNC, hNF⟩
  · by_cases hfok : (decide (o.type = OrderType.FOK) && ! canMatch s o.side o.price) = true
    · have hres : (addOrder s o).2 = s := by
        simp only [addOrder, if_neg hdup, if_pos hfok]
      rw [hres]
      exact ⟨W, hNC, hNF⟩
    · have hres : (addOrder s o).2 = (matchOrders (insertOrder s o)).2 := by
        simp only [addOrder, if_neg hdup, if_neg hfok]
      rw [hres]
      have hfresh : o.id ∉ (allOrders s).map Order.id := by
        intro hcontra
        obtain ⟨x, hxm, hxid⟩ := List.mem_map.1 hcontra
        apply hdup
        have he := W.idxComplete x hxm
        refine find?_isSome_of_mem he ?_
        simp [entryOf, hxid]
      obtain ⟨W2, _⟩ := insertOrder_bookWF W hv hfresh
      exact matchOrders_post W2

theorem emptyBook_wf : BookWF emptyBook := by
  constructor <;> simp [emptyBook, allOrders, sideOrders]

theorem matchOrder_post {s : BookState} {m : OrderModifier} (W : BookWF s) (hNC : NoCross s)
    (hNF : NoFok s) (hv : ValidModifier m) :
    BookWF (matchOrder s m).2 ∧ NoCross (matchOrder s m).2 ∧ NoFok (matchOrder s m).2 := by
  cases hfind : s.orders.find? (fun e => decide (e.id = m.id)) with
  | none =>
    have hres : (matchOrder s m).2 = s := by
      simp only [matchOrder, hfind]
    rw [hres]
    exact ⟨W, hNC, hNF⟩
  | some e =>
    have hres : (matchOrder s m).2 = (addOrder (cancelOrder s m.id) (m.toOrderPointer e.type)).2 := by
      simp only [matchOrder, hfind]
    rw [hres]
    obtain ⟨W1, hm1, hkeep1, hb1, ha1⟩ := cancelOrder_facts W m.id
    have hNC1 : NoCross (cancelOrder s m.id) := by
      intro pb hpb pa hpa
      obtain ⟨qb, hqb⟩ := hb1 pb hpb
      obtain ⟨qa, hqa⟩ := ha1 pa hpa
      exact hNC (pb.1, qb) hqb (pa.1, qa) hqa
    have hNF1 : NoFok (cancelOrder s m.id) := by
      intro x hx
      exact hNF x (hm1 x hx).1
    have hv2 : ValidOrder (m.toOrderPointer e.type) :=
      ⟨hv.1, hv.2.1, hv.2.2, rfl⟩
    exact addOrder_post W1 hNC1 hNF1 hv2

/-- Every state reachable through the public API is well-formed, uncrossed,
and free of resting FOK orders. -/
theorem reachable_inv {s : BookState} (h : Reachable s) :
    BookWF s ∧ NoCross s ∧ NoFok s := by
  induction h with
  | empty =>
    refine ⟨emptyBook_wf, ?_, ?_⟩
    · intro pb hpb pa hpa
      simp [emptyBook] at hpb
    · intro x hx
      simp [emptyBook, allOrders, sideOrders] at hx
  | submit hr hv ih => exact addOrder_post ih.1 ih.2.1 ih.2.2 hv
  | cancel i hr ih =>
    obtain ⟨W1, hm1, hkeep1, hb1, ha1⟩ := cancelOrder_facts ih.1 i
    refine ⟨W1, ?_, ?_⟩
    · intro pb hpb pa hpa
      obtain ⟨qb, hqb⟩ := hb1 pb hpb
      obtain ⟨qa, hqa⟩ := ha1 pa hpa
      exact ih.2.1 (pb.1, qb) hqb (pa.1, qa) hqa
    · intro x hx
      exact ih.2.2 x (hm1 x hx).1
  | amend hr hv ih => exact matchOrder_post ih.1 ih.2.1 ih.2.2 hv

/-! ## Level lookup (the queue the map associates with a price) -/

/-- The FIFO queue at a given price, as `sideMap[price]` would read it
(empty when the level is absent). -/
def lookupLevel (L : List (Nat × List Order)) (p : Nat) : List Order :=
  match L.find? (fun pq => decide (pq.1 = p)) with
  | none => []
  | some pq => pq.2

theorem lookupLevel_nil (p : Nat) : lookupLevel [] p = [] := rfl

theorem lookupLevel_cons_self {p : Nat} {q : List Order} {rest : List (Nat × List Order)} :
    lookupLevel ((p, q) :: rest) p = q := by
  rw [lookupLevel, List.find?_cons_of_pos _ (by simp)]

theorem lookupLevel_cons_ne {p p2 : Nat} {q : List Order} {rest : List (Nat × List Order)}
    (h : p ≠ p2) : lookupLevel ((p, q) :: rest) p2 = lookupLevel rest p2 := by
  rw [lookupLevel, List.find?_cons_of_neg _ (by simp [h]), lookupLevel]

theorem lookupLevel_eq_nil_of_keys {L : List (Nat × List Order)} {p : Nat}
    (h : ∀ pq ∈ L, pq.1 ≠ p) : lookupLevel L p = [] := by
  rw [lookupLevel, List.find?_eq_none.2]
  intro pq hpq
  simp [h pq hpq]

theorem lookupLevel_insertBidLevel_self {p : Nat} {o : Order} {L : List (Nat × List Order)}
    (hs : List.Pairwise (fun a b : Nat × List Order => b.1 < a.1) L) :
    lookupLevel (insertBidLevel p o L) p = lookupLevel L p ++ [o] := by
  induction L with
  | nil =>
    rw [insertBidLevel, lookupLevel_nil, lookupLevel_cons_self]
    rfl
  | cons pq1 rest ih =>
    obtain ⟨p1, q⟩ := pq1
    by_cases hpe : p = p1
    · rw [insertBidLevel, if_pos hpe]
      subst hpe
      rw [lookupLevel_cons_self, lookupLevel_cons_self]
    · by_cases hlt : p1 < p
      · rw [insertBidLevel, if_neg hpe, if_pos hlt, lookupLevel_cons_self]
        have hkeys : ∀ pq ∈ (p1, q) :: rest, pq.1 ≠ p := by
          intro pq hpq
          rcases List.mem_cons.1 hpq with rfl | h2
          · exact fun hc => hpe hc.symm
          · have h3 := (List.pairwise_cons.1 hs).1 pq h2
            omega
        rw [lookupLevel_eq_nil_of_keys hkeys]
        rfl
      · rw [insertBidLevel, if_neg hpe, if_neg hlt,
          lookupLevel_cons_ne (fun hc => hpe hc.symm),
          lookupLevel_cons_ne (fun hc => hpe hc.symm)]
        exact ih (List.pairwise_cons.1 hs).2

theorem lookupLevel_insertAskLevel_self {p : Nat} {o : Order} {L : List (Nat × List Order)}
    (hs : List.Pairwise (fun a b : Nat × List Order => a.1 < b.1) L) :
    lookupLevel (insertAskLevel p o L) p = lookupLevel L p ++ [o] := by
  induction L with
  | nil =>
    rw [insertAskLevel, lookupLevel_nil, lookupLevel_cons_self]
    rfl
  | cons pq1 rest ih =>
    obtain ⟨p1, q⟩ := pq1
    by_cases hpe : p = p1
    · rw [insertAskLevel, if_pos hpe]
      subst hpe
      rw [lookupLevel_cons_self, lookupLevel_cons_self]
    · by_cases hlt : p < p1
      · rw [insertAskLevel, if_neg hpe, if_pos hlt, lookupLevel_cons_self]
        have hkeys : ∀ pq ∈ (p1, q) :: rest, pq.1 ≠ p := by
          intro pq hpq
          rcases List.mem_cons.1 hpq with rfl | h2
          · exact fun hc => hpe hc.symm
          · have h3 := (List.pairwise_cons.1 hs).1 pq h2
            omega
        rw [lookupLevel_eq_nil_of_keys hkeys]
        rfl
      · rw [insertAskLevel, if_neg hpe, if_neg hlt,
          lookupLevel_cons_ne (fun hc => hpe hc.symm),
          lookupLevel_cons_ne (fun hc => hpe hc.symm)]
        exact ih (List.pairwise_cons.1 hs).2

theorem lookupLevel_insertBidLevel_ne {p p2 : Nat} {o : Order} {L : List (Nat × List Order)}
    (h : p2 ≠ p) : lookupLevel (insertBidLevel p o L) p2 = lookupLevel L p2 := by
  induction L with
  | nil =>
    rw [insertBidLevel, lookupLevel_cons_ne (fun hc => h hc.symm)]
  | cons pq1 rest ih =>
    obtain ⟨p1, q⟩ := pq1
    by_cases hpe : p = p1
    · subst hpe
      rw [insertBidLevel, if_pos rfl, lookupLevel_cons_ne (fun hc => h hc.symm),
        lookupLevel_cons_ne (fun hc => h hc.symm)]
    · by_cases hlt : p1 < p
      · rw [insertBidLevel, if_neg hpe, if_pos hlt,
          lookupLevel_cons_ne (fun hc => h hc.symm)]
      · rw [insertBidLevel, if_neg hpe, if_neg hlt]
        by_cases hp1 : p1 = p2
        · subst hp1
          rw [lookupLevel_cons_self, lookupLevel_cons_self]
        · rw [lookupLevel_cons_ne hp1, lookupLevel_cons_ne hp1]
          exact ih

theorem lookupLevel_insertAskLevel_ne {p p2 : Nat} {o : Order} {L : List (Nat × List Order)}
    (h : p2 ≠ p) : lookupLevel (insertAskLevel p o L) p2 = lookupLevel L p2 := by
  induction L with
  | nil =>
    rw [insertAskLevel, lookupLevel_cons_ne (fun hc => h hc.symm)]
  | cons pq1 rest ih =>
    obtain ⟨p1, q⟩ := pq1
    by_cases hpe : p = p1
    · subst hpe
      rw [insertAskLevel, if_pos rfl, lookupLevel_cons_ne (fun hc => h hc.symm),
        lookupLevel_cons_ne (fun hc => h hc.symm)]
    · by_cases hlt : p < p1
      · rw [insertAskLevel, if_neg hpe, if_pos hlt,
          lookupLevel_cons_ne (fun hc => h hc.symm)]
      · rw [insertAskLevel, if_neg hpe, if_neg hlt]
        by_cases hp1 : p1 = p2
        · subst hp1
          rw [lookupLevel_cons_self, lookupLevel_cons_self]
        · rw [lookupLevel_cons_ne hp1, lookupLevel_cons_ne hp1]
          exact ih

theorem lookupLevel_removeFromSide {price i p : Nat} {L : List (Nat × List Order)}
    (hk : List.Pairwise (fun a b : Nat × List Order => a.1 ≠ b.1) L) :
    List.Sublist (lookupLevel (removeFromSide price i L) p) (lookupLevel L p) := by
  induction L with
  | nil => exact List.Sublist.refl _
  | cons pq1 rest ih =>
    obtain ⟨p1, q⟩ := pq1
    by_cases hpe : p1 = price
    · rw [removeFromSide, if_pos hpe]
      by_cases hemp : (eraseOrder i q).isEmpty
      · rw [if_pos hemp]
        by_cases hp1 : p1 = p
        · subst hp1
          rw [lookupLevel_cons_self,
            lookupLevel_eq_nil_of_keys (fun pq hpq => Ne.symm ((List.pairwise_cons.1 hk).1 pq hpq))]
          exact List.nil_sublist _
        · rw [lookupLevel_cons_ne hp1]
      · rw [if_neg hemp]
        by_cases hp1 : p1 = p
        · subst hp1
          rw [lookupLevel_cons_self, lookupLevel_cons_self]
          exact eraseOrder_sublist i q
        · rw [lookupLevel_cons_ne hp1, lookupLevel_cons_ne hp1]
    · rw [removeFromSide, if_neg hpe]
      by_cases hp1 : p1 = p
      · subst hp1
        rw [lookupLevel_cons_self, lookupLevel_cons_self]
      · rw [lookupLevel_cons_ne hp1, lookupLevel_cons_ne hp1]
        exact ih (List.pairwise_cons.1 hk).2

/-! ## Snapshot arithmetic -/

/-- The per-level aggregate of the specification: the exact (unbounded) sum of
remaining quantities over the FIFO queue. -/
def levelTotal : List Order → Nat
  | [] => 0
  | o :: rest => o.remainingQuantity + levelTotal rest

theorem levelQty32_foldl (q : List Order) :
    ∀ acc : Nat, acc + levelTotal q < 4294967296 →
      q.foldl (fun runningSum o => (runningSum + o.remainingQuantity) % 4294967296) acc =
        acc + levelTotal q := by
  induction q with
  | nil =>
    intro acc h
    simp [levelTotal]
  | cons o rest ih =>
    intro acc h
    rw [levelTotal] at h
    rw [List.foldl_cons]
    have h2 : (acc + o.remainingQuantity) % 4294967296 = acc + o.remainingQuantity :=
      Nat.mod_eq_of_lt (by omega)
    rw [h2, ih (acc + o.remainingQuantity) (by omega), levelTotal]
    omega

theorem levelQty32_eq_levelTotal {q : List Order} (h : levelTotal q < 4294967296) :
    levelQty32 q = levelTotal q := by
  have h2 := levelQty32_foldl q 0 (by omega)
  rw [levelQty32, h2]
  omega

theorem levelTotal_pos {q : List Order} (hne : q ≠ [])
    (hpos : ∀ o ∈ q, 0 < o.remainingQuantity) : 0 < levelTotal q := by
  rcases q with _ | ⟨o, rest⟩
  · exact absurd rfl hne
  · have h2 := hpos o (List.mem_cons_self _ _)
    rw [levelTotal]
    omega

/-! ## The amend operation as the specification words it -/

/-- The description the specification gives of `amend` (§4.1 / §8 "Laws"): look up
the *resting order* with the given id, capture its TimeInForce, cancel it,
and submit a new order with the supplied parameters and the captured
TimeInForce; for an id that is not resting, return an empty trade list and
leave the book unchanged.  This is the spec-side composition that
`OrderBook::matchOrder` is claimed to implement. -/
def amendCancelResubmitSpec (s : BookState) (m : OrderModifier) : List Trade × BookState :=
  match (allOrders s).find? (fun o => decide (o.id = m.id)) with
  | none => ([], s)
  | some o => addOrder (cancelOrder s m.id) (m.toOrderPointer o.type)

theorem matchStep_none_of_lt {s : BookState} {bp ap : Nat} {bid ask : Order}
    {bq aq : List Order} {rb ra : List (Nat × List Order)}
    (hb : s.bids = (bp, bid :: bq) :: rb) (ha : s.asks = (ap, ask :: aq) :: ra)
    (hlt : bp < ap) : matchStep s = none := by
  obtain ⟨B, A, O⟩ := s
  simp only at hb ha
  subst hb
  subst ha
  simp [matchStep, hlt]

/-! ## Claim theorems -/

/-- C1: the spec requires that a FOK order whose entire quantity cannot be
filled is rejected with no trades and an unchanged book (scenario S5:
resting SELL GTC 100x3, then BUY FOK 100x5 — no trades, size 1).  The code
instead passes its loose best-price preflight, inserts the FOK order,
emits a trade of quantity 3 and then cancels the remainder, ending
with one trade and an empty book of size 0.  This theorem evaluates the
embedded code on the S5 input, exhibiting the divergence. -/
theorem fok_s5_trade_then_kill :
    (addOrder (addOrder emptyBook ⟨1, OrderSide.SELL, OrderType.GTC, 100, 3, 3⟩).2
        ⟨2, OrderSide.BUY, OrderType.FOK, 100, 5, 5⟩).1 =
      [⟨⟨2, 100, 3⟩, ⟨1, 100, 3⟩⟩] ∧
    getSize (addOrder (addOrder emptyBook ⟨1, OrderSide.SELL, OrderType.GTC, 100, 3, 3⟩).2
        ⟨2, OrderSide.BUY, OrderType.FOK, 100, 5, 5⟩).2 = 0 ∧
    (addOrder (addOrder emptyBook ⟨1, OrderSide.SELL, OrderType.GTC, 100, 3, 3⟩).2
        ⟨2, OrderSide.BUY, OrderType.FOK, 100, 5, 5⟩).2 ≠
      (addOrder emptyBook ⟨1, OrderSide.SELL, OrderType.GTC, 100, 3, 3⟩).2 := by
  decide

/-- C2: whenever the matching loop fires (both sides non-empty with head
orders `bid`, `ask` and best bid not below best ask), the traded quantity
is `min` of the two remaining quantities, the emitted trade records the
bid leg as `(bid.id, bid.price, q)` and the ask leg as
`(ask.id, ask.price, q)` (each with the own limit price of that order),
and the remaining quantities of both head orders are decremented by `q` in the next state
(a head reaching zero is removed, and its emptied level dropped). -/
theorem matching_step_trade_and_decrement {s : BookState} {bp ap : Nat} {bid ask : Order}
    {bq aq : List Order} {rb ra : List (Nat × List Order)} {t : Trade} {s2 : BookState}
    (hb : s.bids = (bp, bid :: bq) :: rb) (ha : s.asks = (ap, ask :: aq) :: ra)
    (hstep : matchStep s = some (t, s2)) :
    t = ⟨⟨bid.id, bid.price, min bid.remainingQuantity ask.remainingQuantity⟩,
         ⟨ask.id, ask.price, min bid.remainingQuantity ask.remainingQuantity⟩⟩ ∧
    s2.bids = (if bid.remainingQuantity - min bid.remainingQuantity ask.remainingQuantity = 0
      then if bq = [] then rb else (bp, bq) :: rb
      else (bp, { bid with remainingQuantity :=
        bid.remainingQuantity - min bid.remainingQuantity ask.remainingQuantity } :: bq) :: rb) ∧
    s2.asks = (if ask.remainingQuantity - min bid.remainingQuantity ask.remainingQuantity = 0
      then if aq = [] then ra else (ap, aq) :: ra
      else (ap, { ask with remainingQuantity :=
        ask.remainingQuantity - min bid.remainingQuantity ask.remainingQuantity } :: aq) :: ra) := by
  have hle : ap ≤ bp := by
    by_contra hcontra
    rw [matchStep_none_of_lt hb ha (Nat.not_le.1 hcontra)] at hstep
    exact Option.noConfusion hstep
  rw [matchStep_run hb ha hle] at hstep
  have hpair := Option.some.inj hstep
  rw [Prod.mk.injEq] at hpair
  refine ⟨hpair.1.symm, ?_, ?_⟩
  · rw [← hpair.2]
  · rw [← hpair.2]

/-- Witness for C2 at a concrete crossing book: BUY 100x5 against
SELL 90x3 trades quantity 3 = min 5 3 with each leg carrying its own
limit price of its own order, the ask removed and the bid decremented
to 2. -/
theorem matching_step_trade_and_decrement_witness :
    (⟨⟨1, 100, 3⟩, ⟨2, 90, 3⟩⟩ : Trade) =
      ⟨⟨1, 100, min 5 3⟩, ⟨2, 90, min 5 3⟩⟩ ∧
    (⟨[(100, [⟨1, OrderSide.BUY, OrderType.GTC, 100, 5, 2⟩])], [],
        [⟨1, OrderSide.BUY, OrderType.GTC, 100⟩]⟩ : BookState).bids =
      (if (5 : Nat) - min 5 3 = 0
        then if ([] : List Order) = [] then [] else (100, ([] : List Order)) :: []
        else (100, { (⟨1, OrderSide.BUY, OrderType.GTC, 100, 5, 5⟩ : Order) with
          remainingQuantity := 5 - min 5 3 } :: []) :: []) ∧
    (⟨[(100, [⟨1, OrderSide.BUY, OrderType.GTC, 100, 5, 2⟩])], [],
        [⟨1, OrderSide.BUY, OrderType.GTC, 100⟩]⟩ : BookState).asks =
      (if (3 : Nat) - min 5 3 = 0
        then if ([] : List Order) = [] then [] else (90, ([] : List Order)) :: []
        else (90, { (⟨2, OrderSide.SELL, OrderType.GTC, 90, 3, 3⟩ : Order) with
          remainingQuantity := 3 - min 5 3 } :: []) :: []) :=
  matching_step_trade_and_decrement
    (s := ⟨[(100, [⟨1, OrderSide.BUY, OrderType.GTC, 100, 5, 5⟩])],
           [(90, [⟨2, OrderSide.SELL, OrderType.GTC, 90, 3, 3⟩])],
           [⟨1, OrderSide.BUY, OrderType.GTC, 100⟩, ⟨2, OrderSide.SELL, OrderType.GTC, 90⟩]⟩)
    rfl rfl (by decide)

/-- C3: on every reachable book state (after every public operation), if
both sides are non-empty then the price of every bid level — in particular
the best (highest) bid — is strictly below the price of every ask level — in
particular the best (lowest) ask. -/
theorem no_cross_invariant {s : BookState} (h : Reachable s) :
    ∀ pb ∈ s.bids, ∀ pa ∈ s.asks, pb.1 < pa.1 :=
  (reachable_inv h).2.1

/-- Witness for C3: after submitting BUY GTC 100x5 and SELL GTC 200x7,
both sides are non-empty and the invariant gives 100 < 200. -/
theorem no_cross_invariant_witness :
    (100, [(⟨1, OrderSide.BUY, OrderType.GTC, 100, 5, 5⟩ : Order)]) ∈
      (addOrder (addOrder emptyBook ⟨1, OrderSide.BUY, OrderType.GTC, 100, 5, 5⟩).2
        ⟨2, OrderSide.SELL, OrderType.GTC, 200, 7, 7⟩).2.bids ∧
    (200, [(⟨2, OrderSide.SELL, OrderType.GTC, 200, 7, 7⟩ : Order)]) ∈
      (addOrder (addOrder emptyBook ⟨1, OrderSide.BUY, OrderType.GTC, 100, 5, 5⟩).2
        ⟨2, OrderSide.SELL, OrderType.GTC, 200, 7, 7⟩).2.asks ∧
    (100 : Nat) < 200 :=
  by
  have hr : Reachable (addOrder (addOrder emptyBook
      ⟨1, OrderSide.BUY, OrderType.GTC, 100, 5, 5⟩).2
      ⟨2, OrderSide.SELL, OrderType.GTC, 200, 7, 7⟩).2 :=
    Reachable.submit (Reachable.submit Reachable.empty (by decide)) (by decide)
  exact ⟨by decide, by decide,
    no_cross_invariant hr
      (100, [⟨1, OrderSide.BUY, OrderType.GTC, 100, 5, 5⟩]) (by decide)
      (200, [⟨2, OrderSide.SELL, OrderType.GTC, 200, 7, 7⟩]) (by decide)⟩

/-- C4: FIFO time priority.  Submission appends the new order to the tail
of the queue at its price (and touches no other queue), the matching engine
always trades the head orders of the best levels, and cancellation only
deletes an element from a queue, keeping the relative order of survivors
(their queue is a sublist of the previous one).  Together these give that
within every Level the queue order equals submission order, so among
equal-priced orders the earliest-submitted trades first. -/
theorem fifo_time_priority (p p2 : Nat) (o : Order) (Lb La : List (Nat × List Order))
    (hbs : List.Pairwise (fun a b : Nat × List Order => b.1 < a.1) Lb)
    (has : List.Pairwise (fun a b : Nat × List Order => a.1 < b.1) La)
    (hne : p2 ≠ p)
    {s : BookState} {bp ap : Nat} {bid ask : Order} {bq aq : List Order}
    {rb ra : List (Nat × List Order)} {t : Trade} {s2 : BookState}
    (hb : s.bids = (bp, bid :: bq) :: rb) (ha : s.asks = (ap, ask :: aq) :: ra)
    (hstep : matchStep s = some (t, s2))
    {s3 : BookState} (hr : Reachable s3) (i : Nat) :
    lookupLevel (insertBidLevel p o Lb) p = lookupLevel Lb p ++ [o] ∧
    lookupLevel (insertAskLevel p o La) p = lookupLevel La p ++ [o] ∧
    lookupLevel (insertBidLevel p o Lb) p2 = lookupLevel Lb p2 ∧
    lookupLevel (insertAskLevel p o La) p2 = lookupLevel La p2 ∧
    t.bid.orderId = bid.id ∧ t.ask.orderId = ask.id ∧
    (∀ pp, List.Sublist (lookupLevel (cancelOrder s3 i).bids pp) (lookupLevel s3.bids pp)) ∧
    (∀ pp, List.Sublist (lookupLevel (cancelOrder s3 i).asks pp) (lookupLevel s3.asks pp)) := by
  have hle : ap ≤ bp := by
    by_contra hcontra
    rw [matchStep_none_of_lt hb ha (Nat.not_le.1 hcontra)] at hstep
    exact Option.noConfusion hstep
  rw [matchStep_run hb ha hle] at hstep
  have hpair := Option.some.inj hstep
  rw [Prod.mk.injEq] at hpair
  have ht := hpair.1
  obtain ⟨W3, _, _⟩ := reachable_inv hr
  have hkb : List.Pairwise (fun a b : Nat × List Order => a.1 ≠ b.1) s3.bids :=
    W3.bidsSorted.imp (fun hlt2 => by omega)
  have hka : List.Pairwise (fun a b : Nat × List Order => a.1 ≠ b.1) s3.asks :=
    W3.asksSorted.imp (fun hlt2 => by omega)
  have hcancelb : ∀ pp,
      List.Sublist (lookupLevel (cancelOrder s3 i).bids pp) (lookupLevel s3.bids pp) := by
    intro pp
    cases hfind : s3.orders.find? (fun e => decide (e.id = i)) with
    | none =>
      have hres : cancelOrder s3 i = s3 := by
        simp only [cancelOrder, hfind]
      rw [hres]
    | some e =>
      cases hsd : e.side with
      | BUY =>
        have hres : cancelOrder s3 i =
            ⟨removeFromSide e.price i s3.bids, s3.asks, eraseById i s3.orders⟩ := by
          simp only [cancelOrder, hfind, hsd]
        rw [hres]
        exact lookupLevel_removeFromSide hkb
      | SELL =>
        have hres : cancelOrder s3 i =
            ⟨s3.bids, removeFromSide e.price i s3.asks, eraseById i s3.orders⟩ := by
          simp only [cancelOrder, hfind, hsd]
        rw [hres]
  have hcancela : ∀ pp,
      List.Sublist (lookupLevel (cancelOrder s3 i).asks pp) (lookupLevel s3.asks pp) := by
    intro pp
    cases hfind : s3.orders.find? (fun e => decide (e.id = i)) with
    | none =>
      have hres : cancelOrder s3 i = s3 := by
        simp only [cancelOrder, hfind]
      rw [hres]
    | some e =>
      cases hsd : e.side with
      | BUY =>
        have hres : cancelOrder s3 i =
            ⟨removeFromSide e.price i s3.bids, s3.asks, eraseById i s3.orders⟩ := by
          simp only [cancelOrder, hfind, hsd]
        rw [hres]
      | SELL =>
        have hres : cancelOrder s3 i =
            ⟨s3.bids, removeFromSide e.price i s3.asks, eraseById i s3.orders⟩ := by
          simp only [cancelOrder, hfind, hsd]
        rw [hres]
        exact lookupLevel_removeFromSide hka
  refine ⟨lookupLevel_insertBidLevel_self hbs, lookupLevel_insertAskLevel_self has,
    lookupLevel_insertBidLevel_ne hne, lookupLevel_insertAskLevel_ne hne,
    ?_, ?_, hcancelb, hcancela⟩
  · rw [← ht]
  · rw [← ht]

/-- Witness for C4 at concrete inputs: tail insertion into an empty and a
non-matching lookup, head consumption in the concrete crossing book, and
cancellation on the empty book. -/
theorem fifo_time_priority_witness :
    lookupLevel (insertBidLevel 100 ⟨7, OrderSide.BUY, OrderType.GTC, 100, 4, 4⟩ []) 100 =
      lookupLevel [] 100 ++ [⟨7, OrderSide.BUY, OrderType.GTC, 100, 4, 4⟩] ∧
    lookupLevel (insertAskLevel 100 ⟨7, OrderSide.BUY, OrderType.GTC, 100, 4, 4⟩ []) 100 =
      lookupLevel [] 100 ++ [⟨7, OrderSide.BUY, OrderType.GTC, 100, 4, 4⟩] ∧
    lookupLevel (insertBidLevel 100 ⟨7, OrderSide.BUY, OrderType.GTC, 100, 4, 4⟩ []) 50 =
      lookupLevel [] 50 ∧
    lookupLevel (insertAskLevel 100 ⟨7, OrderSide.BUY, OrderType.GTC, 100, 4, 4⟩ []) 50 =
      lookupLevel [] 50 ∧
    (⟨⟨1, 100, 3⟩, ⟨2, 90, 3⟩⟩ : Trade).bid.orderId =
      (⟨1, OrderSide.BUY, OrderType.GTC, 100, 5, 5⟩ : Order).id ∧
    (⟨⟨1, 100, 3⟩, ⟨2, 90, 3⟩⟩ : Trade).ask.orderId =
      (⟨2, OrderSide.SELL, OrderType.GTC, 90, 3, 3⟩ : Order).id ∧
    (∀ pp, List.Sublist (lookupLevel (cancelOrder emptyBook 1).bids pp)
      (lookupLevel emptyBook.bids pp)) ∧
    (∀ pp, List.Sublist (lookupLevel (cancelOrder emptyBook 1).asks pp)
      (lookupLevel emptyBook.asks pp)) := by
  have hstep : matchStep
      ⟨[(100, [⟨1, OrderSide.BUY, OrderType.GTC, 100, 5, 5⟩])],
       [(90, [⟨2, OrderSide.SELL, OrderType.GTC, 90, 3, 3⟩])],
       [⟨1, OrderSide.BUY, OrderType.GTC, 100⟩, ⟨2, OrderSide.SELL, OrderType.GTC, 90⟩]⟩ =
      some (⟨⟨1, 100, 3⟩, ⟨2, 90, 3⟩⟩,
        ⟨[(100, [⟨1, OrderSide.BUY, OrderType.GTC, 100, 5, 2⟩])], [],
         [⟨1, OrderSide.BUY, OrderType.GTC, 100⟩]⟩) := by decide
  exact fifo_time_priority 100 50 ⟨7, OrderSide.BUY, OrderType.GTC, 100, 4, 4⟩ [] []
    (by decide) (by decide) (by decide) rfl rfl hstep Reachable.empty 1

/-- C5: after any public operation returns (that is, in every reachable
book state) no order with TimeInForce FOK is observable, neither in any
price Level nor in the order index. -/
theorem no_resting_fok {s : BookState} (h : Reachable s) :
    (∀ o ∈ allOrders s, o.type ≠ OrderType.FOK) ∧
    (∀ e ∈ s.orders, e.type ≠ OrderType.FOK) := by
  obtain ⟨W, _, hNF⟩ := reachable_inv h
  refine ⟨hNF, ?_⟩
  intro e he
  obtain ⟨x, hxm, hxe⟩ := W.idxSound e he
  have ht : x.type = e.type := by
    rw [← hxe]
    rfl
  rw [← ht]
  exact hNF x hxm

/-- Witness for C5: the book reached by scenario S5 (a FOK order was
submitted and traded in part along the way) contains no FOK order in
its levels nor in its index. -/
theorem no_resting_fok_witness :
    (∀ o ∈ allOrders (addOrder (addOrder emptyBook
        ⟨1, OrderSide.SELL, OrderType.GTC, 100, 3, 3⟩).2
        ⟨2, OrderSide.BUY, OrderType.FOK, 100, 5, 5⟩).2, o.type ≠ OrderType.FOK) ∧
    (∀ e ∈ (addOrder (addOrder emptyBook
        ⟨1, OrderSide.SELL, OrderType.GTC, 100, 3, 3⟩).2
        ⟨2, OrderSide.BUY, OrderType.FOK, 100, 5, 5⟩).2.orders, e.type ≠ OrderType.FOK) := by
  have hr : Reachable (addOrder (addOrder emptyBook
      ⟨1, OrderSide.SELL, OrderType.GTC, 100, 3, 3⟩).2
      ⟨2, OrderSide.BUY, OrderType.FOK, 100, 5, 5⟩).2 :=
    Reachable.submit (Reachable.submit Reachable.empty (by decide)) (by decide)
  exact no_resting_fok hr

/-- C6: on every reachable book, `matchOrder` (amend) agrees exactly with
the composition the specification words it as: capture the TimeInForce of
the resting order,
cancel the id, then submit a new order with the supplied parameters and
the captured TimeInForce; an id that is not resting yields an empty trade
list and an unchanged book. -/
theorem amend_is_cancel_then_resubmit {s : BookState} (h : Reachable s)
    (m : OrderModifier) : matchOrder s m = amendCancelResubmitSpec s m := by
  obtain ⟨W, _, _⟩ := reachable_inv h
  cases hfind : s.orders.find? (fun e => decide (e.id = m.id)) with
  | none =>
    have h2 : (allOrders s).find? (fun o => decide (o.id = m.id)) = none := by
      rw [List.find?_eq_none]
      intro x hx hpx
      simp only [decide_eq_true_eq] at hpx
      have he := W.idxComplete x hx
      have h3 := List.find?_eq_none.1 hfind _ he
      simp only [decide_eq_true_eq] at h3
      exact h3 hpx
    simp only [matchOrder, amendCancelResubmitSpec, hfind, h2]
  | some e =>
    have heMem := List.mem_of_find?_eq_some hfind
    have heid : e.id = m.id := by
      have h2 := List.find?_some hfind
      simpa using h2
    obtain ⟨x, hxm, hxe⟩ := W.idxSound e heMem
    have hxid : x.id = m.id := by
      have h4 : x.id = e.id := by
        rw [← hxe]
        rfl
      rw [h4, heid]
    cases hfind2 : (allOrders s).find? (fun o => decide (o.id = m.id)) with
    | none =>
      exfalso
      have h3 := List.find?_eq_none.1 hfind2 x hxm
      simp only [decide_eq_true_eq] at h3
      exact h3 hxid
    | some y =>
      have hyMem := List.mem_of_find?_eq_some hfind2
      have hyid : y.id = m.id := by
        have h2 := List.find?_some hfind2
        simpa using h2
      have hxy : x = y :=
        List.inj_on_of_nodup_map W.idsNodup hxm hyMem (by rw [hxid, hyid])
      have htype : e.type = y.type := by
        rw [← hxy, ← hxe]
        rfl
      simp only [matchOrder, amendCancelResubmitSpec, hfind, hfind2, htype]

/-- Witness for C6 at a concrete reachable book with one resting order:
amending it agrees with cancel-then-resubmit, and amending an absent id is
a no-op in both formulations. -/
theorem amend_is_cancel_then_resubmit_witness :
    matchOrder (addOrder emptyBook ⟨1, OrderSide.BUY, OrderType.GTC, 100, 5, 5⟩).2
        ⟨1, OrderSide.BUY, OrderType.GTC, 105, 7⟩ =
      amendCancelResubmitSpec (addOrder emptyBook
        ⟨1, OrderSide.BUY, OrderType.GTC, 100, 5, 5⟩).2
        ⟨1, OrderSide.BUY, OrderType.GTC, 105, 7⟩ ∧
    matchOrder (addOrder emptyBook ⟨1, OrderSide.BUY, OrderType.GTC, 100, 5, 5⟩).2
        ⟨999, OrderSide.SELL, OrderType.GTC, 50, 2⟩ =
      amendCancelResubmitSpec (addOrder emptyBook
        ⟨1, OrderSide.BUY, OrderType.GTC, 100, 5, 5⟩).2
        ⟨999, OrderSide.SELL, OrderType.GTC, 50, 2⟩ := by
  have hr : Reachable (addOrder emptyBook ⟨1, OrderSide.BUY, OrderType.GTC, 100, 5, 5⟩).2 :=
    Reachable.submit Reachable.empty (by decide)
  exact ⟨amend_is_cancel_then_resubmit hr ⟨1, OrderSide.BUY, OrderType.GTC, 105, 7⟩,
    amend_is_cancel_then_resubmit hr ⟨999, OrderSide.SELL, OrderType.GTC, 50, 2⟩⟩

/-- C7: the matching loop terminates.  Every firing of the loop body
removes at least one head order (in particular it strictly decreases the
total remaining quantity of the two head orders by a positive amount or
removes a head order), so the number of resting orders is a strictly
decreasing measure; consequently the loop converges — its result state
allows no further step — and any iteration budget beyond the number of
resting orders computes the same result. -/
theorem matching_loop_terminates (s : BookState) :
    (∀ (t : Trade) (s2 : BookState), matchStep s = some (t, s2) →
      numOrders s2 < numOrders s) ∧
    matchStep (matchLoop s).2 = none ∧
    (∀ fuel : Nat, numOrders s < fuel → matchLoopFuel fuel s = matchLoop s) :=
  ⟨fun _ _ h => matchStep_numOrders h,
   matchStep_matchLoop s,
   fun fuel hf => matchLoopFuel_indep fuel (numOrders s + 1) s hf (Nat.lt_succ_self _)⟩

/-- Witness for C7 at the concrete crossing book: the step removes the
filled ask (one resting order left out of two), the loop result allows no
further step, and a budget of 7 agrees with the built-in one. -/
theorem matching_loop_terminates_witness :
    numOrders ⟨[(100, [⟨1, OrderSide.BUY, OrderType.GTC, 100, 5, 2⟩])], [],
        [⟨1, OrderSide.BUY, OrderType.GTC, 100⟩]⟩ <
      numOrders ⟨[(100, [⟨1, OrderSide.BUY, OrderType.GTC, 100, 5, 5⟩])],
        [(90, [⟨2, OrderSide.SELL, OrderType.GTC, 90, 3, 3⟩])],
        [⟨1, OrderSide.BUY, OrderType.GTC, 100⟩, ⟨2, OrderSide.SELL, OrderType.GTC, 90⟩]⟩ ∧
    matchStep (matchLoop ⟨[(100, [⟨1, OrderSide.BUY, OrderType.GTC, 100, 5, 5⟩])],
        [(90, [⟨2, OrderSide.SELL, OrderType.GTC, 90, 3, 3⟩])],
        [⟨1, OrderSide.BUY, OrderType.GTC, 100⟩, ⟨2, OrderSide.SELL, OrderType.GTC, 90⟩]⟩).2 =
      none ∧
    matchLoopFuel 7 ⟨[(100, [⟨1, OrderSide.BUY, OrderType.GTC, 100, 5, 5⟩])],
        [(90, [⟨2, OrderSide.SELL, OrderType.GTC, 90, 3, 3⟩])],
        [⟨1, OrderSide.BUY, OrderType.GTC, 100⟩, ⟨2, OrderSide.SELL, OrderType.GTC, 90⟩]⟩ =
      matchLoop ⟨[(100, [⟨1, OrderSide.BUY, OrderType.GTC, 100, 5, 5⟩])],
        [(90, [⟨2, OrderSide.SELL, OrderType.GTC, 90, 3, 3⟩])],
        [⟨1, OrderSide.BUY, OrderType.GTC, 100⟩, ⟨2, OrderSide.SELL, OrderType.GTC, 90⟩]⟩ :=
  ⟨(matching_loop_terminates _).1 ⟨⟨1, 100, 3⟩, ⟨2, 90, 3⟩⟩
      ⟨[(100, [⟨1, OrderSide.BUY, OrderType.GTC, 100, 5, 2⟩])], [],
        [⟨1, OrderSide.BUY, OrderType.GTC, 100⟩]⟩ (by decide),
   (matching_loop_terminates _).2.1,
   (matching_loop_terminates _).2.2 7 (by decide)⟩

/-- C8: submitting an order whose id is already resting in the book is
rejected: `addOrder` returns the empty trade list and the book state is
returned unchanged. -/
theorem duplicate_oid_rejected {s : BookState} {o : Order} (h : Reachable s)
    (hmem : o.id ∈ (allOrders s).map Order.id) : addOrder s o = ([], s) := by
  obtain ⟨W, _, _⟩ := reachable_inv h
  obtain ⟨x, hxm, hxid⟩ := List.mem_map.1 hmem
  have hsome : (s.orders.find? (fun e => decide (e.id = o.id))).isSome = true :=
    find?_isSome_of_mem (W.idxComplete x hxm) (by simp [entryOf, hxid])
  simp only [addOrder, if_pos hsome]

/-- Witness for C8: after resting order 1, submitting a different order
carrying id 1 returns no trades and leaves the book untouched. -/
theorem duplicate_oid_rejected_witness :
    (1 : Nat) ∈ (allOrders (addOrder emptyBook
      ⟨1, OrderSide.BUY, OrderType.GTC, 100, 5, 5⟩).2).map Order.id ∧
    addOrder (addOrder emptyBook ⟨1, OrderSide.BUY, OrderType.GTC, 100, 5, 5⟩).2
        ⟨1, OrderSide.SELL, OrderType.GTC, 90, 3, 3⟩ =
      ([], (addOrder emptyBook ⟨1, OrderSide.BUY, OrderType.GTC, 100, 5, 5⟩).2) := by
  have hr : Reachable (addOrder emptyBook ⟨1, OrderSide.BUY, OrderType.GTC, 100, 5, 5⟩).2 :=
    Reachable.submit Reachable.empty (by decide)
  exact ⟨by decide, duplicate_oid_rejected hr (by decide)⟩

/-- C9 (corrected claim, counterexample): the synthetic `Quantity(1)`
branch of the snapshot is reachable.  Two BUY GTC orders of quantity
2^31 at the same price are a reachable book whose level sums to 2^32;
the `uint32` accumulation wraps to 0, the branch fires, and the snapshot
entry is `(100, 1)` instead of `(100, 2^32)` — so the snapshot does not
equal the per-level sums of remaining quantity. -/
theorem snapshot_synthetic_branch_reachable :
    Reachable (addOrder (addOrder emptyBook
        ⟨1, OrderSide.BUY, OrderType.GTC, 100, 2147483648, 2147483648⟩).2
        ⟨2, OrderSide.BUY, OrderType.GTC, 100, 2147483648, 2147483648⟩).2 ∧
    (getOrderBookLevelInfos (addOrder (addOrder emptyBook
        ⟨1, OrderSide.BUY, OrderType.GTC, 100, 2147483648, 2147483648⟩).2
        ⟨2, OrderSide.BUY, OrderType.GTC, 100, 2147483648, 2147483648⟩).2).1 = [(100, 1)] ∧
    (addOrder (addOrder emptyBook
        ⟨1, OrderSide.BUY, OrderType.GTC, 100, 2147483648, 2147483648⟩).2
        ⟨2, OrderSide.BUY, OrderType.GTC, 100, 2147483648, 2147483648⟩).2.bids.map
      (fun pq => (pq.1, levelTotal pq.2)) = [(100, 4294967296)] ∧
    (getOrderBookLevelInfos (addOrder (addOrder emptyBook
        ⟨1, OrderSide.BUY, OrderType.GTC, 100, 2147483648, 2147483648⟩).2
        ⟨2, OrderSide.BUY, OrderType.GTC, 100, 2147483648, 2147483648⟩).2).1 ≠
      (addOrder (addOrder emptyBook
        ⟨1, OrderSide.BUY, OrderType.GTC, 100, 2147483648, 2147483648⟩).2
        ⟨2, OrderSide.BUY, OrderType.GTC, 100, 2147483648, 2147483648⟩).2.bids.map
      (fun pq => (pq.1, levelTotal pq.2)) :=
  ⟨Reachable.submit (Reachable.submit Reachable.empty (by decide)) (by decide),
   by decide, by decide, by decide⟩

/-- C9 (amended): on every reachable book state in which no price level
has exact total remaining quantity reaching 2^32 (so the `uint32` accumulation
cannot wrap), the synthetic `Quantity(1)` branch is never taken — every
32-bit sum of any level is non-zero — and every snapshot entry equals
`(price, sum of remaining quantities over the queue of the level)`. -/
theorem snapshot_exact_below_wrap {s : BookState} (h : Reachable s)
    (hb : ∀ pq ∈ s.bids, levelTotal pq.2 < 4294967296)
    (ha : ∀ pq ∈ s.asks, levelTotal pq.2 < 4294967296) :
    getOrderBookLevelInfos s =
      (s.bids.map (fun pq => (pq.1, levelTotal pq.2)),
       s.asks.map (fun pq => (pq.1, levelTotal pq.2))) ∧
    (∀ pq ∈ s.bids, levelQty32 pq.2 ≠ 0) ∧
    (∀ pq ∈ s.asks, levelQty32 pq.2 ≠ 0) := by
  obtain ⟨W, _, _⟩ := reachable_inv h
  have hbid : ∀ pq ∈ s.bids, levelQty32 pq.2 = levelTotal pq.2 ∧ 0 < levelTotal pq.2 := by
    intro pq hpq
    refine ⟨levelQty32_eq_levelTotal (hb pq hpq), ?_⟩
    refine levelTotal_pos (W.bidsNE pq hpq) ?_
    intro o ho
    have hom : o ∈ allOrders s :=
      List.mem_append_left _ (mem_sideOrders.2 ⟨pq, hpq, ho⟩)
    exact (W.posRem o hom).1
  have hask : ∀ pq ∈ s.asks, levelQty32 pq.2 = levelTotal pq.2 ∧ 0 < levelTotal pq.2 := by
    intro pq hpq
    refine ⟨levelQty32_eq_levelTotal (ha pq hpq), ?_⟩
    refine levelTotal_pos (W.asksNE pq hpq) ?_
    intro o ho
    have hom : o ∈ allOrders s :=
      List.mem_append_right _ (mem_sideOrders.2 ⟨pq, hpq, ho⟩)
    exact (W.posRem o hom).1
  have hcreateb : ∀ pq ∈ s.bids, createLevelInfos pq.1 pq.2 = (pq.1, levelTotal pq.2) := by
    intro pq hpq
    obtain ⟨h1, h2⟩ := hbid pq hpq
    rw [createLevelInfos, h1, if_neg (by omega)]
  have hcreatea : ∀ pq ∈ s.asks, createLevelInfos pq.1 pq.2 = (pq.1, levelTotal pq.2) := by
    intro pq hpq
    obtain ⟨h1, h2⟩ := hask pq hpq
    rw [createLevelInfos, h1, if_neg (by omega)]
  refine ⟨?_, ?_, ?_⟩
  · rw [getOrderBookLevelInfos]
    rw [Prod.mk.injEq]
    constructor
    · exact List.map_congr_left (fun pq hpq => hcreateb pq hpq)
    · exact List.map_congr_left (fun pq hpq => hcreatea pq hpq)
  · intro pq hpq
    obtain ⟨h1, h2⟩ := hbid pq hpq
    omega
  · intro pq hpq
    obtain ⟨h1, h2⟩ := hask pq hpq
    omega

/-- Witness for C9 (amended) on the two-sided book with small quantities:
the snapshot is exactly the per-level totals and no 32-bit sum is zero. -/
theorem snapshot_exact_below_wrap_witness :
    getOrderBookLevelInfos (addOrder (addOrder emptyBook
        ⟨1, OrderSide.BUY, OrderType.GTC, 100, 5, 5⟩).2
        ⟨2, OrderSide.SELL, OrderType.GTC, 200, 7, 7⟩).2 =
      ((addOrder (addOrder emptyBook ⟨1, OrderSide.BUY, OrderType.GTC, 100, 5, 5⟩).2
        ⟨2, OrderSide.SELL, OrderType.GTC, 200, 7, 7⟩).2.bids.map
          (fun pq => (pq.1, levelTotal pq.2)),
       (addOrder (addOrder emptyBook ⟨1, OrderSide.BUY, OrderType.GTC, 100, 5, 5⟩).2
        ⟨2, OrderSide.SELL, OrderType.GTC, 200, 7, 7⟩).2.asks.map
          (fun pq => (pq.1, levelTotal pq.2))) ∧
    (∀ pq ∈ (addOrder (addOrder emptyBook ⟨1, OrderSide.BUY, OrderType.GTC, 100, 5, 5⟩).2
        ⟨2, OrderSide.SELL, OrderType.GTC, 200, 7, 7⟩).2.bids, levelQty32 pq.2 ≠ 0) ∧
    (∀ pq ∈ (addOrder (addOrder emptyBook ⟨1, OrderSide.BUY, OrderType.GTC, 100, 5, 5⟩).2
        ⟨2, OrderSide.SELL, OrderType.GTC, 200, 7, 7⟩).2.asks, levelQty32 pq.2 ≠ 0) := by
  have hr : Reachable (addOrder (addOrder emptyBook
      ⟨1, OrderSide.BUY, OrderType.GTC, 100, 5, 5⟩).2
      ⟨2, OrderSide.SELL, OrderType.GTC, 200, 7, 7⟩).2 :=
    Reachable.submit (Reachable.submit Reachable.empty (by decide)) (by decide)
  exact snapshot_exact_below_wrap hr (by decide) (by decide)

/-- C10: in every execution of the matching loop — every iterate of the
loop on the book obtained by inserting a constructor-valid, fresh-id order
into a reachable book — the quantity handed to `Order::fill` equals the
minimum of the remaining quantities of the two head orders, is strictly
positive, and exceeds neither remaining quantity; consequently the
`std::invalid_argument` guard in `Order::fill` never fires (`fill` succeeds
on both heads) and the traded quantity is never zero. -/
theorem fill_preconditions_hold {s : BookState} {o : Order} (hr : Reachable s)
    (hv : ValidOrder o) (hfresh : o.id ∉ (allOrders s).map Order.id) (n : Nat)
    {bp ap : Nat} {bid ask : Order} {bq aq : List Order} {rb ra : List (Nat × List Order)}
    {t : Trade} {s2 : BookState}
    (hb : (matchLoopFuel n (insertOrder s o)).2.bids = (bp, bid :: bq) :: rb)
    (ha : (matchLoopFuel n (insertOrder s o)).2.asks = (ap, ask :: aq) :: ra)
    (hstep : matchStep (matchLoopFuel n (insertOrder s o)).2 = some (t, s2)) :
    t.bid.quantity = min bid.remainingQuantity ask.remainingQuantity ∧
    t.ask.quantity = min bid.remainingQuantity ask.remainingQuantity ∧
    0 < t.bid.quantity ∧
    t.bid.quantity ≤ bid.remainingQuantity ∧
    t.bid.quantity ≤ ask.remainingQuantity ∧
    bid.fill t.bid.quantity =
      some { bid with remainingQuantity := bid.remainingQuantity - t.bid.quantity } ∧
    ask.fill t.ask.quantity =
      some { ask with remainingQuantity := ask.remainingQuantity - t.ask.quantity } := by
  obtain ⟨W, _, _⟩ := reachable_inv hr
  obtain ⟨Wi, _⟩ := insertOrder_bookWF W hv hfresh
  have Wn : BookWF (matchLoopFuel n (insertOrder s o)).2 :=
    matchLoopFuel_pres BookWF (fun a b c hx wx => matchStep_bookWF hx wx) n _ Wi
  have hbidMem : bid ∈ allOrders (matchLoopFuel n (insertOrder s o)).2 := by
    have h1 : bid ∈ sideOrders (matchLoopFuel n (insertOrder s o)).2.bids := by
      rw [hb, sideOrders_cons]
      exact List.mem_append_left _ (List.mem_cons_self _ _)
    exact List.mem_append_left _ h1
  have haskMem : ask ∈ allOrders (matchLoopFuel n (insertOrder s o)).2 := by
    have h1 : ask ∈ sideOrders (matchLoopFuel n (insertOrder s o)).2.asks := by
      rw [ha, sideOrders_cons]
      exact List.mem_append_left _ (List.mem_cons_self _ _)
    exact List.mem_append_right _ h1
  have hbpos := (Wn.posRem bid hbidMem).1
  have hapos := (Wn.posRem ask haskMem).1
  have hle : ap ≤ bp := by
    by_contra hcontra
    rw [matchStep_none_of_lt hb ha (Nat.not_le.1 hcontra)] at hstep
    exact Option.noConfusion hstep
  rw [matchStep_run hb ha hle] at hstep
  have hpair := Option.some.inj hstep
  rw [Prod.mk.injEq] at hpair
  have ht := hpair.1
  refine ⟨?_, ?_, ?_, ?_, ?_, ?_, ?_⟩
  · rw [← ht]
  · rw [← ht]
  · rw [← ht]
    show 0 < min bid.remainingQuantity ask.remainingQuantity
    exact lt_min_iff.2 ⟨hbpos, hapos⟩
  · rw [← ht]
    show min bid.remainingQuantity ask.remainingQuantity ≤ bid.remainingQuantity
    exact Nat.min_le_left _ _
  · rw [← ht]
    show min bid.remainingQuantity ask.remainingQuantity ≤ ask.remainingQuantity
    exact Nat.min_le_right _ _
  · rw [← ht]
    show bid.fill (min bid.remainingQuantity ask.remainingQuantity) = _
    rw [Order.fill, if_neg (Nat.not_lt.2 (Nat.min_le_left _ _))]
  · rw [← ht]
    show ask.fill (min bid.remainingQuantity ask.remainingQuantity) = _
    rw [Order.fill, if_neg (Nat.not_lt.2 (Nat.min_le_right _ _))]

/-- Witness for C10: inserting a crossing BUY 100x5 into a reachable book
with a resting SELL 90x3 produces a first iteration trading quantity
min 5 3 = 3, positive and within both remaining quantities, on which
`fill` succeeds for both head orders. -/
theorem fill_preconditions_hold_witness :
    (⟨⟨2, 100, 3⟩, ⟨1, 90, 3⟩⟩ : Trade).bid.quantity = min 5 3 ∧
    (⟨⟨2, 100, 3⟩, ⟨1, 90, 3⟩⟩ : Trade).ask.quantity = min 5 3 ∧
    0 < (⟨⟨2, 100, 3⟩, ⟨1, 90, 3⟩⟩ : Trade).bid.quantity ∧
    (⟨⟨2, 100, 3⟩, ⟨1, 90, 3⟩⟩ : Trade).bid.quantity ≤ 5 ∧
    (⟨⟨2, 100, 3⟩, ⟨1, 90, 3⟩⟩ : Trade).bid.quantity ≤ 3 ∧
    (⟨2, OrderSide.BUY, OrderType.GTC, 100, 5, 5⟩ : Order).fill
        (⟨⟨2, 100, 3⟩, ⟨1, 90, 3⟩⟩ : Trade).bid.quantity =
      some { (⟨2, OrderSide.BUY, OrderType.GTC, 100, 5, 5⟩ : Order) with
        remainingQuantity := 5 - (⟨⟨2, 100, 3⟩, ⟨1, 90, 3⟩⟩ : Trade).bid.quantity } ∧
    (⟨1, OrderSide.SELL, OrderType.GTC, 90, 3, 3⟩ : Order).fill
        (⟨⟨2, 100, 3⟩, ⟨1, 90, 3⟩⟩ : Trade).ask.quantity =
      some { (⟨1, OrderSide.SELL, OrderType.GTC, 90, 3, 3⟩ : Order) with
        remainingQuantity := 3 - (⟨⟨2, 100, 3⟩, ⟨1, 90, 3⟩⟩ : Trade).ask.quantity } := by
  have hr : Reachable (addOrder emptyBook ⟨1, OrderSide.SELL, OrderType.GTC, 90, 3, 3⟩).2 :=
    Reachable.submit Reachable.empty (by decide)
  have hstep : matchStep (matchLoopFuel 0 (insertOrder
      (addOrder emptyBook ⟨1, OrderSide.SELL, OrderType.GTC, 90, 3, 3⟩).2
      ⟨2, OrderSide.BUY, OrderType.GTC, 100, 5, 5⟩)).2 =
      some (⟨⟨2, 100, 3⟩, ⟨1, 90, 3⟩⟩,
        ⟨[(100, [⟨2, OrderSide.BUY, OrderType.GTC, 100, 5, 2⟩])], [],
         [⟨2, OrderSide.BUY, OrderType.GTC, 100⟩]⟩) := by decide
  have hbw : (matchLoopFuel 0 (insertOrder
      (addOrder emptyBook ⟨1, OrderSide.SELL, OrderType.GTC, 90, 3, 3⟩).2
      ⟨2, OrderSide.BUY, OrderType.GTC, 100, 5, 5⟩)).2.bids =
      (100, (⟨2, OrderSide.BUY, OrderType.GTC, 100, 5, 5⟩ : Order) :: []) :: [] := by decide
  have haw : (matchLoopFuel 0 (insertOrder
      (addOrder emptyBook ⟨1, OrderSide.SELL, OrderType.GTC, 90, 3, 3⟩).2
      ⟨2, OrderSide.BUY, OrderType.GTC, 100, 5, 5⟩)).2.asks =
      (90, (⟨1, OrderSide.SELL, OrderType.GTC, 90, 3, 3⟩ : Order) :: []) :: [] := by decide
  exact fill_preconditions_hold hr (by decide) (by decide) 0 hbw haw hstep
